import Mathlib

/-!
Shallow embedding of the "goblin wars" combat simulator from the AoC2018
repository (crate `goblinwars`, together with the workspace `geometry` crate).

Rust `isize`/`i32` positions are modelled as `Int` (coordinates in this
engine stay far away from the machine-integer boundaries; the only place a
machine bound is semantically relevant is the `BoundingBox::empty` sentinel,
which is modelled with the exact `isize` extremes).  Rust `u32` health is
modelled as `Nat`: `u32::saturating_sub` on natural values is exactly
truncated subtraction, so no wrap-around can be observed.

`HashMap<Point, Sprite>` / `HashSet<Point>` are modelled as association
lists / lists of points; every map/set operation below spells out the
corresponding `std::collections` semantics (insert replaces the binding,
remove deletes it, lookup finds the binding).  `BinaryHeap` is a max-heap;
its pop sequence on distinct keys is the descending sort with respect to
the element `Ord`, which is how round queues are modelled
(`heapPopList`).
-/

namespace GoblinWars

/-- Rust `Ordering` for `isize`/`i32` values: `a.cmp(&b)`. -/
def icmp (a b : Int) : Ordering :=
  if a < b then .lt else if b < a then .gt else .eq

/-- Rust `Ordering` for `u32` values: `a.cmp(&b)`. -/
def ncmp (a b : Nat) : Ordering :=
  if a < b then .lt else if b < a then .gt else .eq

/-- geometry.rs: `enum Direction { Up, Down, Left, Right }`. -/
inductive Direction where
  | Up
  | Down
  | Left
  | Right
deriving DecidableEq, Repr

/-- geometry.rs `Direction::all()`: all directions in "reading order",
i.e. such that the resulting points are in reading order from the current
position. -/
def Direction.all : List Direction :=
  [Direction.Up, Direction.Left, Direction.Right, Direction.Down]

/-- geometry.rs: `struct Point { x, y }`. -/
structure Point where
  x : Int
  y : Int
deriving DecidableEq, Repr

/-- geometry.rs `Point::reading_order`:
`self.y.cmp(&other.y).then(self.x.cmp(&other.x)).reverse()`. -/
def Point.readingOrder (p q : Point) : Ordering :=
  ((icmp p.y q.y).then (icmp p.x q.x)).swap

/-- goblinwars geometry.rs `impl Ord for Point`: delegates to
`reading_order` (so the `Ord` is the reversed reading order: the max-heap
maximum is the reading-order-first point). -/
def Point.cmp (p q : Point) : Ordering :=
  p.readingOrder q

def Point.up (p : Point) : Point := ⟨p.x, p.y - 1⟩

def Point.down (p : Point) : Point := ⟨p.x, p.y + 1⟩

def Point.left (p : Point) : Point := ⟨p.x - 1, p.y⟩

def Point.right (p : Point) : Point := ⟨p.x + 1, p.y⟩

/-- geometry.rs `Point::step`. -/
def Point.step (p : Point) : Direction → Point
  | .Left => p.left
  | .Right => p.right
  | .Up => p.up
  | .Down => p.down

/-- geometry.rs `Point::adjacent`: pushes up, down, left, right (this list
is only ever consumed as a set). -/
def Point.adjacent (p : Point) : List Point :=
  [p.up, p.down, p.left, p.right]

/-- geometry.rs `Point::distance`: manhattan distance
`(dx).abs() + (dy).abs()` (the source returns `Position`; the engine only
ever compares it with `1`, so the natural-number absolute value is used). -/
def Point.distance (p q : Point) : Nat :=
  (p.x - q.x).natAbs + (p.y - q.y).natAbs

/-- sprite/mod.rs: `enum Species { Elf, Goblin }`. -/
inductive Species where
  | Elf
  | Goblin
deriving DecidableEq, Repr

/-- sprite/mod.rs `Species::is_enemy`: species inequality. -/
def Species.is_enemy (a b : Species) : Bool :=
  decide (¬ a = b)

/-- sprite/mod.rs: `enum SpriteStatus { Alive(Nat), Dead }`. -/
inductive SpriteStatus where
  | Alive (h : Nat)
  | Dead
deriving DecidableEq, Repr

/-- sprite/mod.rs: `struct Sprite { species, hit_points, attack_power }`. -/
structure Sprite where
  species : Species
  hit_points : Nat
  attack_power : Nat
deriving DecidableEq, Repr

/-- sprite/mod.rs `Sprite::attack`: pure accessor of `attack_power`. -/
def Sprite.attack (s : Sprite) : Nat :=
  s.attack_power

/-- sprite/mod.rs `Sprite::status`: `Dead` at zero hit points, otherwise
`Alive(h)`. -/
def Sprite.status (s : Sprite) : SpriteStatus :=
  match s.hit_points with
  | 0 => .Dead
  | h => .Alive h

/-- sprite/mod.rs `Sprite::wound`: saturating subtraction of the attack
power from the hit points, returning the resulting status (the Rust method
mutates in place; here the updated sprite is returned alongside). -/
def Sprite.wound (s : Sprite) (attack : Nat) : SpriteStatus × Sprite :=
  let s1 : Sprite := ⟨s.species, s.hit_points - attack, s.attack_power⟩
  (s1.status, s1)

/-- sprite/mod.rs `Sprite::is_enemy`. -/
def Sprite.is_enemy (s other : Sprite) : Bool :=
  s.species.is_enemy other.species

/-- sprite/collection.rs: `struct Sprites { sprites: HashMap<Point, Sprite> }`,
modelled as an association list with `HashMap` semantics (the unspecified
iteration order of the hash map becomes the list order; every consumer either
sorts or is order-insensitive). -/
abbrev Sprites := List (Point × Sprite)

/-- `HashMap::get`. -/
def Sprites.get : Sprites → Point → Option Sprite
  | [], _ => none
  | e :: es, p => if e.1 = p then some e.2 else Sprites.get es p

/-- `HashMap::remove`: deletes the binding of the key. -/
def Sprites.remove (s : Sprites) (p : Point) : Sprites :=
  s.filter fun e => decide (¬ e.1 = p)

/-- sprite/collection.rs `Sprites::place`: `HashMap::insert`, replacing any
previous binding at the position. -/
def Sprites.place (s : Sprites) (position : Point) (sprite : Sprite) : Sprites :=
  (position, sprite) :: s.remove position

/-- sprite/collection.rs `Sprites::step`: removes the sprite at `point`
(`unwrap`: `none` models the panic on a missing sprite) and re-places it one
step in `direction`. -/
def Sprites.step (s : Sprites) (point : Point) (direction : Direction) : Option Sprites :=
  (s.get point).map fun sprite => (s.remove point).place (point.step direction) sprite

/-- sprite/collection.rs `Sprites::attack`: the sprite at `aggressor` wounds
the sprite at `target` with its attack power; a victim whose resulting status
is `Dead` is removed from the battlefield in the same operation.  The two
`unwrap`-style lookups of the Rust source become the `none` result. -/
def Sprites.attack (s : Sprites) (aggressor target : Point) : Option (SpriteStatus × Sprites) :=
  match s.get aggressor, s.get target with
  | some agg, some victim =>
    let result := (victim.wound agg.attack).1
    let victim1 := (victim.wound agg.attack).2
    match result with
    | .Dead => some (result, s.remove target)
    | .Alive h => some (.Alive h, s.place target victim1)
  | _, _ => none

/-- `BinaryHeap::peek` on a heap of `Point`s ordered by `Point.cmp`: the
maximum element (for the reversed reading-order `Ord` this is the
reading-order-first point). -/
def heapMax : List Point → Option Point
  | [] => none
  | p :: ps => some (ps.foldl (fun best q => if Point.cmp q best = .gt then q else best) p)

/-- sprite/collection.rs `Sprites::peek`: collects the positions into a
`BinaryHeap` and returns the sprite at its top. -/
def Sprites.peek (s : Sprites) : Option Sprite :=
  (heapMax (s.map (·.1))).bind fun p => s.get p

/-- sprite/collection.rs `Sprites::victorious`: the species of the peeked
sprite, provided no sprite of an enemy species remains. -/
def Sprites.victorious (s : Sprites) : Option Species :=
  s.peek.bind fun sp =>
    if s.any (fun e => e.2.species.is_enemy sp.species) then none else some sp.species

/-- map/tile.rs: `enum Tile { Empty, Wall }`. -/
inductive Tile where
  | Empty
  | Wall
deriving DecidableEq, Repr

/-- map/tile.rs: `struct Grid(HashSet<Point>)` — the set of explicitly open
points; anything else is a wall. -/
abbrev Grid := List Point

/-- map/tile.rs `Grid::insert`: `Empty` inserts the point into the open set,
`Wall` removes it. -/
def Grid.insert (g : Grid) (point : Point) : Tile → Grid
  | .Empty => if point ∈ g then g else point :: g
  | .Wall => g.filter fun q => decide (¬ q = point)

/-- map/tile.rs `Grid::get`: `Empty` iff the point is in the open set,
otherwise `Wall`. -/
def Grid.get (g : Grid) (point : Point) : Tile :=
  if point ∈ g then .Empty else .Wall

/-- map/mod.rs: `enum MapElement { Tile(Tile), Sprite(Species) }`. -/
inductive MapElement where
  | Tile (t : Tile)
  | Sprite (s : Species)
deriving DecidableEq, Repr

/-- map/mod.rs `MapElement::is_empty`. -/
def MapElement.is_empty : MapElement → Bool
  | .Tile .Empty => true
  | .Tile .Wall => false
  | .Sprite _ => false

/-- map/mod.rs `Map::element`: the sprite at the position if any, else the
tile. -/
def element (g : Grid) (s : Sprites) (position : Point) : MapElement :=
  match s.get position with
  | some sprite => .Sprite sprite.species
  | none => .Tile (g.get position)

/-- Modelled from the spec: `Map::is_occupied` is called by
`map/pathfinding.rs` but its definition is absent from the sources; §4.3
states the search visits only "open, unoccupied points", so a point is
occupied iff its map element is not empty open ground (a wall or a sprite). -/
def is_occupied (g : Grid) (s : Sprites) (p : Point) : Bool :=
  ¬ (element g s p).is_empty

/-- Comparator of map/mod.rs `Map::target`:
`s_a.health().cmp(&s_b.health()).then(p_a.cmp(p_b).reverse())` (the reversed
reversed-reading-order is the plain reading order). -/
def targetCmp (a b : Point × Sprite) : Ordering :=
  (ncmp a.2.hit_points b.2.hit_points).then ((Point.cmp a.1 b.1).swap)

/-- The `sort_by` relation induced by `targetCmp`: `a` may precede `b`. -/
def targetRel (a b : Point × Sprite) : Prop :=
  ¬ targetCmp a b = .gt

instance : DecidableRel targetRel := fun a b => by
  unfold targetRel; infer_instance

/-- map/mod.rs `Map::target`: among the enemies of the sprite at `location`
standing at distance exactly 1, the position of the first after sorting by
(health, then reading order of position). -/
def Sprites.target (s : Sprites) (location : Point) : Option Point :=
  (s.get location).bind fun sprite =>
    let targets := s.filter fun e => sprite.is_enemy e.2 && decide (e.1.distance location = 1)
    (List.insertionSort targetRel targets).head?.map (·.1)

/-- `HashSet::insert` on a list-modelled set. -/
def insertPoint (l : List Point) (p : Point) : List Point :=
  if p ∈ l then l else p :: l

/-- map/mod.rs `Map::target_points`: every empty map element adjacent to a
sprite of an enemy species of `species`. -/
def target_points (g : Grid) (s : Sprites) (species : Species) : List Point :=
  s.foldl
    (fun acc e =>
      if species.is_enemy e.2.species then
        e.1.adjacent.foldl
          (fun acc2 neighbor =>
            if (element g s neighbor).is_empty then insertPoint acc2 neighbor else acc2)
          acc
      else acc)
    []

/-- map/mod.rs `Map::score`: the sum of the hit points of the surviving
sprites. -/
def scoreOf (s : Sprites) : Nat :=
  (s.map fun e => e.2.hit_points).sum

/-- map/pathfinding.rs: `struct SpritePath { destination, direction, distance }`. -/
structure SpritePath where
  destination : Point
  direction : Direction
  distance : Nat
deriving DecidableEq, Repr

/-- map/pathfinding.rs: `struct PathSegment { direction, path: Vec<Point> }` —
a breadth-first search node carrying its seed direction and the list of points
walked so far (never empty by construction; `destination` totalises the
`unwrap` of the last element with a default). -/
structure PathSegment where
  direction : Direction
  path : List Point
deriving DecidableEq, Repr

/-- map/pathfinding.rs `PathSegment::destination`: the last point of the path. -/
def PathSegment.destination (ps : PathSegment) : Point :=
  ps.path.getLastD ⟨0, 0⟩

/-- map/pathfinding.rs `PathSegment::distance`: the length of the path. -/
def PathSegment.distance (ps : PathSegment) : Nat :=
  ps.path.length

/-- map/pathfinding.rs `PathSegment::step`: extends the path one square. -/
def PathSegment.step (ps : PathSegment) (direction : Direction) : PathSegment :=
  ⟨ps.direction, ps.path ++ [ps.destination.step direction]⟩

/-- map/pathfinding.rs `PathSegment::paths`: one length-1 segment per
direction, seeded at the neighbors of `point` in `Direction::all()` order. -/
def PathSegment.paths (point : Point) : List PathSegment :=
  Direction.all.map fun direction => ⟨direction, [point.step direction]⟩

/-- map/pathfinding.rs `PathSegment -> SpritePath` conversion. -/
def PathSegment.toSpritePath (ps : PathSegment) : SpritePath :=
  ⟨ps.destination, ps.direction, ps.distance⟩

/-- map/pathfinding.rs `Pathfinder::calculate_partial_path`: pushes, for each
direction in reading order, the one-step extension of `candidate` whose new
endpoint is unvisited and unoccupied, marking each pushed endpoint visited. -/
def expandFrontier (g : Grid) (s : Sprites) (candidate : PathSegment)
    (visited : List Point) : List PathSegment × List Point :=
  Direction.all.foldl
    (fun acc direction =>
      let next_point := candidate.destination.step direction
      if next_point ∉ acc.2 ∧ is_occupied g s next_point = false then
        (acc.1 ++ [candidate.step direction], next_point :: acc.2)
      else acc)
    ([], visited)

/-- The `while !paths.is_empty()` loop of
`Pathfinder::calculate_shortest_path`: pops the front of the `VecDeque`,
diverts target destinations into the candidate list without expanding them,
and otherwise appends the frontier expansion to the back of the queue.  The
fuel argument dominates the iteration count (each queue entry marks a fresh
visited open square, so four seeds plus the open-square count bounds the
pops); when it runs out the candidates collected so far are returned. -/
def bfsLoop (g : Grid) (s : Sprites) (targets : List Point) :
    Nat → List PathSegment → List Point → List PathSegment → List PathSegment
  | 0, _, _, candidates => candidates
  | _ + 1, [], _, candidates => candidates
  | fuel + 1, candidate :: rest, visited, candidates =>
    if candidate.destination ∈ targets then
      bfsLoop g s targets fuel rest visited (candidates ++ [candidate])
    else
      let expansion := expandFrontier g s candidate visited
      bfsLoop g s targets fuel (rest ++ expansion.1) expansion.2 candidates

/-- Rust `Iterator::min_by_key` on the distance: the first element attaining
the minimum (later elements replace only when strictly smaller). -/
def minByDistance : List PathSegment → Option PathSegment
  | [] => none
  | c :: cs =>
    some (cs.foldl (fun best x => if x.distance < best.distance then x else best) c)

/-- map/pathfinding.rs `Pathfinder::calculate_shortest_path`: `None` when no
sprite stands at the origin, when the sprite already has an attack target in
range, or when the search exhausts without reaching a target square;
otherwise the first minimum-distance candidate of the breadth-first search. -/
def calculate_shortest_path (g : Grid) (s : Sprites) (origin : Point) : Option SpritePath :=
  match s.get origin with
  | none => none
  | some sprite =>
    if (Sprites.target s origin).isSome then none
    else
      let targets := target_points g s sprite.species
      let seeds := (PathSegment.paths origin).filter
        fun p => is_occupied g s p.destination = false
      let candidates := bfsLoop g s targets (g.length + 5) seeds [] []
      (minByDistance candidates).map PathSegment.toSpritePath

/-- game/mod.rs `Pathfinders` + map/pathfinding.rs `Pathfinder` memo:
per-species pathfinder caches, flattened into one association list keyed by
(species, origin) holding the memoized `find_path` results. -/
abbrev Cache := List ((Species × Point) × Option SpritePath)

/-- `HashMap::entry` lookup on the cache. -/
def cacheFind : Cache → Species × Point → Option (Option SpritePath)
  | [], _ => none
  | e :: es, k => if e.1 = k then some e.2 else cacheFind es k

/-- map/pathfinding.rs `Pathfinder::find_path` through `Pathfinders::get`:
on a cache hit the memoized result is returned unchanged; on a miss the
shortest path is computed on the current map and memoized. -/
def findPathCached (g : Grid) (s : Sprites) (c : Cache) (species : Species)
    (origin : Point) : Option SpritePath × Cache :=
  match cacheFind c (species, origin) with
  | some r => (r, c)
  | none =>
    let r := calculate_shortest_path g s origin
    (r, ((species, origin), r) :: c)

/-- map/round.rs (and map/mod.rs, game/round.rs): `enum RoundOutcome`.
The game/round.rs variant carries the victim species on `Casualty`; no
verified property inspects it, so the payload-free map/round.rs form is
used. -/
inductive RoundOutcome where
  | NoAction
  | CombatOnly
  | Casualty
  | Movement
  | MidRoundVictory (s : Species)
  | Victory (s : Species)
deriving DecidableEq, Repr

/-- map/round.rs `RoundOutcome::combat`. -/
def RoundOutcome.combat : RoundOutcome → RoundOutcome
  | .NoAction => .CombatOnly
  | o => o

/-- map/round.rs `RoundOutcome::movement`. -/
def RoundOutcome.movement : RoundOutcome → RoundOutcome
  | .NoAction => .Movement
  | .CombatOnly => .Movement
  | o => o

/-- map/round.rs `RoundOutcome::casualty`. -/
def RoundOutcome.casualty : RoundOutcome → RoundOutcome
  | .CombatOnly => .Casualty
  | .NoAction => .Casualty
  | o => o

/-- map/round.rs `RoundOutcome::is_finished`. -/
def RoundOutcome.is_finished : RoundOutcome → Bool
  | .CombatOnly => false
  | .Movement => false
  | .Casualty => false
  | .NoAction => false
  | _ => true

/-- The heap order relation used by the round queues: `p` may be popped no
later than `q` (the `BinaryHeap` maximum pops first, so the pop sequence is
descending with respect to `Point.cmp`; game/round.rs wraps the workspace
geometry `Point` — whose `Ord` is the plain (y, x) order — in `QPoint`,
whose `cmp` reverses it, which is definitionally the same ordering as
`Point.cmp` here). -/
def heapGE (p q : Point) : Prop :=
  ¬ Point.cmp p q = .lt

instance : DecidableRel heapGE := fun p q => by
  unfold heapGE; infer_instance

/-- The pop sequence of a `BinaryHeap<Point>` holding the given (distinct)
points: the descending sort with respect to the heap `Ord`. -/
def heapPopList (ps : List Point) : List Point :=
  List.insertionSort heapGE ps

/-- game/round.rs `struct Round` (grid split out of the map): the map being
mutated, the memoized pathfinders, and the snapshot queue of round-start
positions in pop order. -/
structure RoundState where
  grid : Grid
  sprites : Sprites
  cache : Cache
  queue : List Point
deriving DecidableEq, Repr

/-- game/round.rs `Round::direction`: no movement when an attack target is
already in range; otherwise the direction of the memoized path for the
sprite's species (the `?` on the sprite lookup yields `none` when the popped
position is vacant, leaving the cache untouched). -/
def Round.direction (g : Grid) (s : Sprites) (c : Cache) (location : Point) :
    Option Direction × Cache :=
  match Sprites.target s location with
  | some _ => (none, c)
  | none =>
    match s.get location with
    | none => (none, c)
    | some sprite =>
      let r := findPathCached g s c sprite.species location
      (r.1.map (·.direction), r.2)

/-- game/round.rs `Round::tick`: mid-round victory check, then pop a
round-start position, resolve the movement phase (stepping the sprite and
clearing the pathfinder cache on success) and the attack phase (wounding the
chosen target, removing it and clearing the cache when it dies).  `none`
models a panic inside `Sprites::step` / `Sprites::attack`. -/
def Round.tick (st : RoundState) (o : RoundOutcome) : Option (RoundOutcome × RoundState) :=
  match Sprites.victorious st.sprites with
  | some victor => some (.MidRoundVictory victor, st)
  | none =>
    match st.queue with
    | [] => some (o, st)
    | location :: rest =>
      let dir := Round.direction st.grid st.sprites st.cache location
      match dir.1 with
      | some d =>
        match Sprites.step st.sprites location d with
        | none => none
        | some s1 =>
          let o1 := o.movement
          let location1 := location.step d
          match Sprites.target s1 location1 with
          | some t =>
            match Sprites.attack s1 location1 t with
            | none => none
            | some (.Dead, s2) => some (o1.casualty, ⟨st.grid, s2, [], rest⟩)
            | some (.Alive _, s2) => some (o1.combat, ⟨st.grid, s2, [], rest⟩)
          | none => some (o1, ⟨st.grid, s1, [], rest⟩)
      | none =>
        match Sprites.target st.sprites location with
        | some t =>
          match Sprites.attack st.sprites location t with
          | none => none
          | some (.Dead, s2) => some (o.casualty, ⟨st.grid, s2, [], rest⟩)
          | some (.Alive _, s2) => some (o.combat, ⟨st.grid, s2, dir.2, rest⟩)
        | none => some (o, ⟨st.grid, st.sprites, dir.2, rest⟩)

/-- The `while (!queue.is_empty()) && (!outcome.is_finished())` loop of
game/round.rs `Round::play`.  Every iteration either pops one queue entry or
produces a finished outcome, so `queue.length + 1` fuel always completes the
loop. -/
def Round.playLoop : Nat → RoundState → RoundOutcome → Option (RoundOutcome × RoundState)
  | 0, st, o => some (o, st)
  | fuel + 1, st, o =>
    if st.queue.isEmpty then some (o, st)
    else if o.is_finished then some (o, st)
    else
      match Round.tick st o with
      | none => none
      | some (o1, st1) => Round.playLoop fuel st1 o1

/-- game/round.rs `Round::play`: run the tick loop from `NoAction`, then
convert an unfinished outcome into `Victory` when one species holds the
field. -/
def Round.play (st : RoundState) : Option (RoundOutcome × RoundState) :=
  (Round.playLoop (st.queue.length + 1) st .NoAction).map fun r =>
    match Sprites.victorious r.2.sprites with
    | some victor => if r.1.is_finished then r else (.Victory victor, r.2)
    | none => r

/-- game/mod.rs `struct Game`: the map (grid + sprites) and the pathfinder
caches that persist across rounds. -/
structure Game where
  grid : Grid
  sprites : Sprites
  cache : Cache
deriving DecidableEq, Repr

/-- game/round.rs `Round::new` followed by `play`: snapshot the current
sprite positions into the queue (heap pop order) and play the round. -/
def Game.playRound (g : Game) : Option (RoundOutcome × Game) :=
  (Round.play ⟨g.grid, g.sprites, g.cache, heapPopList (g.sprites.map (·.1))⟩).map
    fun r => (r.1, ⟨g.grid, r.2.sprites, r.2.cache⟩)

/-- game/mod.rs `Game::score` (via `Map::score`). -/
def Game.score (g : Game) : Nat :=
  scoreOf g.sprites

/-- game/mod.rs `struct GameComplete`: victors, completed rounds, score. -/
structure GameComplete where
  victors : Species
  rounds : Nat
  score : Nat
deriving DecidableEq, Repr

/-- map/round.rs / game/round.rs `RoundError` (the `Interrupted` variant
wraps callback failures, which are not modelled). -/
inductive RoundError where
  | NoMovesRemain
deriving DecidableEq, Repr

/-- The result of `Game::run`: a completed game or a round error. -/
inductive RunResult where
  | ok (g : GameComplete)
  | err (e : RoundError)
deriving DecidableEq, Repr

/-- game/mod.rs `Game::run`, with the round counter made explicit: plays
rounds from `round` upward; `Victory` completes with the full round count,
`MidRoundVictory` with the count minus one, `NoAction` raises the fatal
no-moves-remain error, and anything else continues.  The fuel bounds the
`for round in 1..` iteration; exhaustion is `none`. -/
def Game.runAux (g : Game) (round : Nat) : Nat → Option RunResult
  | 0 => none
  | fuel + 1 =>
    match g.playRound with
    | none => none
    | some (o, g1) =>
      match o with
      | .Victory s => some (.ok ⟨s, round, round * g1.score⟩)
      | .MidRoundVictory s => some (.ok ⟨s, round - 1, (round - 1) * g1.score⟩)
      | .NoAction => some (.err .NoMovesRemain)
      | _ => g1.runAux (round + 1) fuel

/-- game/mod.rs `Game::run` started at round 1. -/
def Game.run (g : Game) (fuel : Nat) : Option RunResult :=
  g.runAux 1 fuel

/-! ### Bounding boxes, the map builder and the map renderer -/

/-- `isize::max_value()` (geometry.rs `BoundingBox::empty` sentinel). -/
def isizeMax : Int := 2 ^ 63 - 1

/-- `isize::min_value()` (geometry.rs `BoundingBox::empty` sentinel). -/
def isizeMin : Int := -(2 ^ 63)

/-- geometry.rs: `struct BoundingBox { left, right, top, bottom }`. -/
structure BoundingBox where
  left : Int
  right : Int
  top : Int
  bottom : Int
deriving DecidableEq, Repr

/-- geometry.rs `BoundingBox::empty`. -/
def BoundingBox.empty : BoundingBox :=
  ⟨isizeMax, isizeMin, isizeMax, isizeMin⟩

/-- geometry.rs `BoundingBox::include`. -/
def BoundingBox.includePoint (b : BoundingBox) (point : Point) : BoundingBox :=
  ⟨if point.x < b.left then point.x else b.left,
   if point.x > b.right then point.x else b.right,
   if point.y < b.top then point.y else b.top,
   if point.y > b.bottom then point.y else b.bottom⟩

/-- geometry.rs `BoundingBox::union`. -/
def BoundingBox.union (b o : BoundingBox) : BoundingBox :=
  ⟨if b.left > o.left then o.left else b.left,
   if b.right > o.right then b.right else o.right,
   if b.top > o.top then o.top else b.top,
   if b.bottom > o.bottom then b.bottom else o.bottom⟩

/-- geometry.rs `BoundingBox::margin`. -/
def BoundingBox.margin (b : BoundingBox) (size : Int) : BoundingBox :=
  ⟨b.left - size, b.right + size, b.top - size, b.bottom + size⟩

/-- map/tile.rs `Grid::bbox` / sprite/collection.rs `Sprites::bbox`: fold
`include` over the points starting from the empty box. -/
def bboxOf (ps : List Point) : BoundingBox :=
  ps.foldl BoundingBox.includePoint BoundingBox.empty

/-- map/mod.rs `Map::bbox`: the union of the grid and sprite boxes. -/
def Map.bbox (g : Grid) (s : Sprites) : BoundingBox :=
  (bboxOf g).union (bboxOf (s.map (·.1)))

/-- map/mod.rs `MapElement::from_str` on one character: first try `Tile`,
then `Species`; anything else is a parse error. -/
def parseElem : Char → Option MapElement
  | '.' => some (.Tile .Empty)
  | '#' => some (.Tile .Wall)
  | 'E' => some (.Sprite .Elf)
  | 'G' => some (.Sprite .Goblin)
  | _ => none

/-- sprite/builder.rs: `struct StatBuilder { default, species }` — a
species-keyed stat table with a fallback default. -/
structure StatBuilder where
  default : Nat
  species : List (Species × Nat)
deriving DecidableEq, Repr

/-- Association-list lookup for the stat table. -/
def findStat : List (Species × Nat) → Species → Option Nat
  | [], _ => none
  | e :: es, s => if e.1 = s then some e.2 else findStat es s

/-- sprite/builder.rs `StatBuilder::get`. -/
def StatBuilder.get (b : StatBuilder) (s : Species) : Nat :=
  (findStat b.species s).getD b.default

/-- sprite/builder.rs: `struct SpriteBuilder { health, attack }`. -/
structure SpriteBuilder where
  health : StatBuilder
  attack : StatBuilder
deriving DecidableEq, Repr

/-- sprite/builder.rs `Default for SpriteBuilder`: health 200, attack 3. -/
def SpriteBuilder.default : SpriteBuilder :=
  ⟨⟨200, []⟩, ⟨3, []⟩⟩

/-- sprite/builder.rs `SpriteBuilder::build`. -/
def SpriteBuilder.build (b : SpriteBuilder) (species : Species) : Sprite :=
  ⟨species, b.health.get species, b.attack.get species⟩

/-- Rust `str::trim` on a line of characters. -/
def trimLine (l : List Char) : List Char :=
  ((l.dropWhile Char.isWhitespace).reverse.dropWhile Char.isWhitespace).reverse

/-- The inner loop of map/mod.rs `MapBuilder::build`: walk the characters of
one (already trimmed) line at row `y`, inserting tiles into the grid; a
sprite glyph places a freshly built sprite and marks its square as open
ground. -/
def buildLine (b : SpriteBuilder) (y : Int) : Int → List Char → Grid × Sprites →
    Option (Grid × Sprites)
  | _, [], acc => some acc
  | x, c :: cs, acc =>
    match parseElem c with
    | none => none
    | some (.Tile t) => buildLine b y (x + 1) cs (acc.1.insert ⟨x, y⟩ t, acc.2)
    | some (.Sprite species) =>
      buildLine b y (x + 1) cs
        (acc.1.insert ⟨x, y⟩ .Empty, acc.2.place ⟨x, y⟩ (b.build species))

/-- The outer loop of map/mod.rs `MapBuilder::build`: `enumerate` numbers
every input line (blank lines are skipped but still advance `y`), and each
non-blank line is trimmed before its characters are enumerated from 0. -/
def buildLines (b : SpriteBuilder) : Int → List (List Char) → Grid × Sprites →
    Option (Grid × Sprites)
  | _, [], acc => some acc
  | y, line :: ls, acc =>
    if (trimLine line).isEmpty then buildLines b (y + 1) ls acc
    else
      match buildLine b y 0 (trimLine line) acc with
      | none => none
      | some acc1 => buildLines b (y + 1) ls acc1

/-- map/mod.rs `MapBuilder::build` (the text is modelled as the list of its
lines, each a list of characters). -/
def MapBuilder.build (b : SpriteBuilder) (lines : List (List Char)) :
    Option (Grid × Sprites) :=
  buildLines b 0 lines ([], [])

/-- A list of consecutive integers from `a` to `b` (the `RangeInclusive`
iteration of `BoundingBox::vertical` / `horizontal`). -/
def intRange (a b : Int) : List Int :=
  (List.range (b + 1 - a).toNat).map fun (i : Nat) => a + (i : Int)

/-- `Display for Species`. -/
def speciesChar : Species → Char
  | .Elf => 'E'
  | .Goblin => 'G'

/-- `Display for Tile`. -/
def tileChar : Tile → Char
  | .Empty => '.'
  | .Wall => '#'

/-- One character of `Display for Map`: the sprite glyph if a sprite stands
there (dropping its health annotation), else the tile. -/
def renderChar (g : Grid) (s : Sprites) (p : Point) : Char :=
  match s.get p with
  | some sprite => speciesChar sprite.species
  | none => tileChar (g.get p)

/-- map/mod.rs `impl Display for Map`: iterate the rows and columns of the
map bounding box expanded by a margin of 1, printing one character per
square (modelled as the list of output lines). -/
def Map.render (g : Grid) (s : Sprites) : List (List Char) :=
  let bb := (Map.bbox g s).margin 1
  (intRange bb.top bb.bottom).map fun y =>
    (intRange bb.left bb.right).map fun x => renderChar g s ⟨x, y⟩

/-- examples.rs `map_ascii_trim`: trim every line and drop the blank ones
(the normalisation under which rendered maps are compared to fixtures). -/
def mapAsciiTrim (ls : List (List Char)) : List (List Char) :=
  (ls.map trimLine).filter fun l => decide (¬ l = [])

/-- The character of the input text at a point (row `p.y`, column `p.x`). -/
def charAt (lines : List (List Char)) (p : Point) : Option Char :=
  if 0 ≤ p.x ∧ 0 ≤ p.y then
    match lines[p.y.toNat]? with
    | none => none
    | some row => row[p.x.toNat]?
  else none

/-! ### Concrete battlefield fixtures -/

/-- Fixture for the double-turn scenario: open squares
`(1,1) (0,2) (1,2) (2,2) (3,2)`; everything else is wall. -/
def exGrid : Grid := [⟨1, 1⟩, ⟨0, 2⟩, ⟨1, 2⟩, ⟨2, 2⟩, ⟨3, 2⟩]

/-- Fixture sprites: an elf K at (1,1), an elf A (attack power 4) at (0,2),
a wounded goblin C (2 hp) at (1,2) and a goblin D at (3,2). -/
def exSprites : Sprites :=
  [(⟨1, 1⟩, ⟨.Elf, 200, 3⟩), (⟨0, 2⟩, ⟨.Elf, 200, 4⟩),
   (⟨1, 2⟩, ⟨.Goblin, 2, 3⟩), (⟨3, 2⟩, ⟨.Goblin, 200, 3⟩)]

/-- The fixture as a game with an empty pathfinder cache. -/
def exGame : Game := ⟨exGrid, exSprites, []⟩

/-- The fixture as a round about to start (round-start snapshot queue). -/
def exSt0 : RoundState :=
  ⟨exGrid, exSprites, [], heapPopList (exSprites.map (·.1))⟩

/-- The fixture state after the first two ticks: K has slain C, and A has
stepped right onto C's vacated square (1,2) — which is still pending in the
round queue. -/
def exSt2 : RoundState :=
  ⟨exGrid,
   [(⟨1, 2⟩, ⟨.Elf, 200, 4⟩), (⟨1, 1⟩, ⟨.Elf, 200, 3⟩), (⟨3, 2⟩, ⟨.Goblin, 200, 3⟩)],
   [], [⟨1, 2⟩, ⟨3, 2⟩]⟩

/-- The fixture state after the third tick: popping the stale entry (1,2)
made A move again to (2,2) and attack D. -/
def exSt3 : RoundState :=
  ⟨exGrid,
   [(⟨3, 2⟩, ⟨.Goblin, 196, 3⟩), (⟨2, 2⟩, ⟨.Elf, 200, 4⟩), (⟨1, 1⟩, ⟨.Elf, 200, 3⟩)],
   [], [⟨3, 2⟩]⟩

/-- Pathfinding fixture: a fully open 7×5 room (x 1..7, y 1..5) inside
walls. -/
def c3Grid : Grid :=
  (List.range 5).flatMap fun j => (List.range 7).map fun i =>
    (⟨(i : Int) + 1, (j : Int) + 1⟩ : Point)

/-- Pathfinding fixture sprites: an elf at (3,2) and goblins at (2,4) and
(6,2). -/
def c3Sprites : Sprites :=
  [(⟨3, 2⟩, ⟨.Elf, 200, 3⟩), (⟨2, 4⟩, ⟨.Goblin, 200, 3⟩), (⟨6, 2⟩, ⟨.Goblin, 200, 3⟩)]

/-- Deadlock fixture `#E#G#`: an elf and a goblin in separate one-square
cells. -/
def dlGame : Game :=
  ⟨[⟨1, 1⟩, ⟨3, 1⟩], [(⟨1, 1⟩, ⟨.Elf, 200, 3⟩), (⟨3, 1⟩, ⟨.Goblin, 200, 3⟩)], []⟩

/-- Mid-round-victory fixture: a lone goblin with 7 hit points. -/
def mrGame : Game := ⟨[⟨1, 1⟩], [(⟨1, 1⟩, ⟨.Goblin, 7, 3⟩)], []⟩

/-- The game state after the mid-round-victory round (unchanged map). -/
def mrPost : Game := ⟨[⟨1, 1⟩], [(⟨1, 1⟩, ⟨.Goblin, 7, 3⟩)], []⟩

/-- End-round-victory fixture: a weak elf first in reading order, a goblin
second; the goblin's blow on the last queue entry ends the round
ordinarily. -/
def vGame : Game :=
  ⟨[⟨1, 1⟩, ⟨2, 1⟩], [(⟨1, 1⟩, ⟨.Elf, 3, 3⟩), (⟨2, 1⟩, ⟨.Goblin, 10, 3⟩)], []⟩

/-- The game state after the ordinary-victory round. -/
def vPost : Game :=
  ⟨[⟨1, 1⟩, ⟨2, 1⟩], [(⟨2, 1⟩, ⟨.Goblin, 7, 3⟩)], []⟩

/-- Cache-invalidation fixture: an elf about to kill an adjacent goblin,
with a non-empty pathfinder cache. -/
def c2St : RoundState :=
  ⟨[⟨1, 1⟩, ⟨2, 1⟩], [(⟨1, 1⟩, ⟨.Elf, 200, 3⟩), (⟨2, 1⟩, ⟨.Goblin, 2, 3⟩)],
   [((Species.Elf, ⟨1, 1⟩), none)], [⟨1, 1⟩, ⟨2, 1⟩]⟩

/-- The cache-invalidation fixture after the elf's tick. -/
def c2Post : RoundState :=
  ⟨[⟨1, 1⟩, ⟨2, 1⟩], [(⟨1, 1⟩, ⟨.Elf, 200, 3⟩)], [], [⟨2, 1⟩]⟩

/-- Target-selection fixture: an elf surrounded by three goblins — one
healthy above, two equally wounded to its left and right. -/
def c5Sprites : Sprites :=
  [(⟨2, 2⟩, ⟨.Elf, 200, 3⟩), (⟨2, 1⟩, ⟨.Goblin, 50, 3⟩),
   (⟨1, 2⟩, ⟨.Goblin, 20, 3⟩), (⟨3, 2⟩, ⟨.Goblin, 20, 3⟩)]

/-- Stale-queue-entry fixture for the tick safety property: the queued
position (5,5) holds no sprite. -/
def c10St : RoundState :=
  ⟨[⟨9, 9⟩], [(⟨1, 1⟩, ⟨.Elf, 200, 3⟩), (⟨2, 1⟩, ⟨.Goblin, 200, 3⟩)], [], [⟨5, 5⟩]⟩

/-- Thick-border parse/print fixture: a 5×5 all-wall block with one open
square in the middle. -/
def thickLines : List (List Char) :=
  [['#', '#', '#', '#', '#'],
   ['#', '#', '#', '#', '#'],
   ['#', '#', '.', '#', '#'],
   ['#', '#', '#', '#', '#'],
   ['#', '#', '#', '#', '#']]

/-- Round-trip witness fixture: a 4×4 map with a single wall ring, an elf
and a goblin. -/
def ringLines : List (List Char) :=
  [['#', '#', '#', '#'],
   ['#', 'E', '.', '#'],
   ['#', '.', 'G', '#'],
   ['#', '#', '#', '#']]

/-! ### Helper lemmas -/

theorem icmp_eq_lt {a b : Int} : icmp a b = .lt ↔ a < b := by
  unfold icmp; split_ifs <;> simp_all <;> omega

theorem icmp_eq_gt {a b : Int} : icmp a b = .gt ↔ b < a := by
  unfold icmp; split_ifs <;> simp_all <;> omega

theorem icmp_eq_eq {a b : Int} : icmp a b = .eq ↔ a = b := by
  unfold icmp; split_ifs <;> simp_all <;> omega

theorem ncmp_eq_lt {a b : Nat} : ncmp a b = .lt ↔ a < b := by
  unfold ncmp; split_ifs <;> simp_all

theorem ncmp_eq_gt {a b : Nat} : ncmp a b = .gt ↔ b < a := by
  unfold ncmp; split_ifs <;> simp_all <;> omega

theorem ncmp_eq_eq {a b : Nat} : ncmp a b = .eq ↔ a = b := by
  unfold ncmp; split_ifs <;> simp_all <;> omega

theorem then_eq_lt {a b : Ordering} :
    a.then b = .lt ↔ (a = .lt ∨ (a = .eq ∧ b = .lt)) := by
  cases a <;> simp [Ordering.then]

theorem then_eq_gt {a b : Ordering} :
    a.then b = .gt ↔ (a = .gt ∨ (a = .eq ∧ b = .gt)) := by
  cases a <;> simp [Ordering.then]

theorem then_eq_eq {a b : Ordering} :
    a.then b = .eq ↔ (a = .eq ∧ b = .eq) := by
  cases a <;> simp [Ordering.then]

theorem swap_eq_lt {a : Ordering} : a.swap = .lt ↔ a = .gt := by
  cases a <;> simp [Ordering.swap]

theorem swap_eq_gt {a : Ordering} : a.swap = .gt ↔ a = .lt := by
  cases a <;> simp [Ordering.swap]

theorem swap_eq_eq {a : Ordering} : a.swap = .eq ↔ a = .eq := by
  cases a <;> simp [Ordering.swap]

/-- `Point.cmp` is `lt` exactly when the second point comes first in reading
order. -/
theorem cmp_eq_lt {p q : Point} :
    Point.cmp p q = .lt ↔ (q.y < p.y ∨ (q.y = p.y ∧ q.x < p.x)) := by
  unfold Point.cmp Point.readingOrder
  rw [swap_eq_lt, then_eq_gt, icmp_eq_gt, icmp_eq_eq, icmp_eq_gt]
  omega

/-- `Point.cmp` is `gt` exactly when the first point comes first in reading
order. -/
theorem cmp_eq_gt {p q : Point} :
    Point.cmp p q = .gt ↔ (p.y < q.y ∨ (p.y = q.y ∧ p.x < q.x)) := by
  unfold Point.cmp Point.readingOrder
  rw [swap_eq_gt, then_eq_lt, icmp_eq_lt, icmp_eq_eq, icmp_eq_lt]

theorem cmp_eq_eq {p q : Point} : Point.cmp p q = .eq ↔ p = q := by
  unfold Point.cmp Point.readingOrder
  rw [swap_eq_eq, then_eq_eq, icmp_eq_eq, icmp_eq_eq]
  constructor
  · rintro ⟨h1, h2⟩; cases p; cases q; simp_all
  · rintro rfl; exact ⟨rfl, rfl⟩

theorem get_remove (s : Sprites) (p q : Point) :
    (s.remove p).get q = if q = p then none else s.get q := by
  induction s with
  | nil =>
    show (Sprites.get [] q) = _
    unfold Sprites.get
    split <;> rfl
  | cons e es ih =>
    simp only [Sprites.remove, List.filter_cons] at *
    by_cases hep : e.1 = p <;> by_cases heq : e.1 = q <;> by_cases hqp : q = p <;>
      simp_all [Sprites.get]

theorem get_place (s : Sprites) (p q : Point) (x : Sprite) :
    (s.place p x).get q = if q = p then some x else s.get q := by
  show (if p = q then some x else (s.remove p).get q) = _
  rw [get_remove]
  by_cases h : q = p
  · simp [h]
  · have h2 : ¬ p = q := fun hh => h hh.symm
    simp [h, h2]

theorem get_isSome_of_mem {s : Sprites} {p : Point} {x : Sprite} (h : (p, x) ∈ s) :
    (s.get p).isSome = true := by
  induction s with
  | nil => cases h
  | cons e es ih =>
    unfold Sprites.get
    by_cases he : e.1 = p
    · simp [he]
    · rcases List.mem_cons.mp h with h1 | h2
      · exact absurd (congrArg Prod.fst h1.symm) he
      · simp only [he, if_false]
        exact ih h2

/-! ### Claim theorems -/

/-- C7 (counterexample): the claim predicts that the `Ord` comparison of
points orders `(0,0)` before `(0,1)` (`cmp = Less`) because its `y` is
smaller; the source comparison is the *reverse* of the reading order, so it
returns `Greater` there. -/
theorem c7_counterexample :
    ¬ (Point.cmp ⟨0, 0⟩ ⟨0, 1⟩ = .lt ↔
        ((Point.mk 0 0).y < (Point.mk 0 1).y ∨
         ((Point.mk 0 0).y = (Point.mk 0 1).y ∧ (Point.mk 0 0).x < (Point.mk 0 1).x))) := by
  decide

/-- C7 (amended): `Point::reading_order`, and hence the `Ord` instance of
`Point`, is the **reverse** of the reading order: `cmp p q` is `Less` iff
`q` comes first in reading order (smaller `y`, then smaller `x`), `Greater`
iff `p` comes first, and `Equal` iff the points coincide — so a Rust
max-heap of points pops the reading-order-first point.  Equality of points
is structural on `(x, y)` (and the `Hash` derive hashes exactly these two
fields). -/
theorem c7_point_order_is_reversed_reading_order (p q : Point) :
    (Point.cmp p q = .lt ↔ (q.y < p.y ∨ (q.y = p.y ∧ q.x < p.x))) ∧
    (Point.cmp p q = .gt ↔ (p.y < q.y ∨ (p.y = q.y ∧ p.x < q.x))) ∧
    (Point.cmp p q = .eq ↔ p = q) ∧
    (p = q ↔ p.x = q.x ∧ p.y = q.y) := by
  refine ⟨cmp_eq_lt, cmp_eq_gt, cmp_eq_eq, ?_⟩
  constructor
  · rintro rfl; exact ⟨rfl, rfl⟩
  · rintro ⟨h1, h2⟩; cases p; cases q; simp_all

/-- C8: `wound` saturates the hit points at zero and reports `Dead` exactly
when they reach zero; `Sprites::attack` applies the aggressor's attack power
to the victim and, whenever the wound reports `Dead`, removes the victim
from the battlefield in the same operation (an `Alive` victim stays with its
reduced hit points). -/
theorem c8_wound_saturates_and_attack_removes_dead
    (sp : Sprite) (a : Nat)
    (s : Sprites) (aggressor target : Point) (agg victim : Sprite)
    (hagg : s.get aggressor = some agg) (hvic : s.get target = some victim) :
    ((sp.wound a).2.hit_points = sp.hit_points - a) ∧
    (a < sp.hit_points → (sp.wound a).1 = .Alive (sp.hit_points - a)) ∧
    (sp.hit_points ≤ a → (sp.wound a).2.hit_points = 0 ∧ (sp.wound a).1 = .Dead) ∧
    ((sp.wound a).1 = .Dead ↔ sp.hit_points - a = 0) ∧
    (∃ s1, Sprites.attack s aggressor target = some ((victim.wound agg.attack).1, s1) ∧
      ((victim.wound agg.attack).1 = .Dead → s1.get target = none) ∧
      (∀ h, (victim.wound agg.attack).1 = .Alive h →
        s1.get target = some (victim.wound agg.attack).2)) := by
  refine ⟨rfl, ?_, ?_, ?_, ?_⟩
  · intro h
    have hne : sp.hit_points - a ≠ 0 := by omega
    unfold Sprite.wound Sprite.status
    cases hn : sp.hit_points - a with
    | zero => exact absurd hn hne
    | succ k => simp only [hn]
  · intro h
    have hz : sp.hit_points - a = 0 := by omega
    unfold Sprite.wound Sprite.status
    rw [hz]
    exact ⟨rfl, rfl⟩
  · unfold Sprite.wound Sprite.status
    cases hn : sp.hit_points - a with
    | zero => simp [hn]
    | succ k => simp [hn]
  · unfold Sprites.attack
    rw [hagg, hvic]
    cases hr : (victim.wound agg.attack).1 with
    | Dead =>
      refine ⟨s.remove target, ?_, ?_, ?_⟩
      · simp only [hr]
      · intro _
        rw [get_remove]
        simp
      · intro h hcon
        exact SpriteStatus.noConfusion hcon
    | Alive h =>
      refine ⟨s.place target (victim.wound agg.attack).2, ?_, ?_, ?_⟩
      · simp only [hr]
      · intro hcon
        exact SpriteStatus.noConfusion hcon
      · intro h1 _
        rw [get_place]
        simp

/-- C8 witness: a goblin with 2 hit points wounded with attack power 5 ends
with 0 hit points (saturated) and is reported `Dead`. -/
theorem c8_witness :
    ((Sprite.mk .Goblin 2 3).wound 5).2.hit_points = 0 ∧
    ((Sprite.mk .Goblin 2 3).wound 5).1 = .Dead := by
  have h := c8_wound_saturates_and_attack_removes_dead ⟨.Goblin, 2, 3⟩ 5
    [(⟨1, 1⟩, ⟨.Elf, 200, 3⟩), (⟨2, 1⟩, ⟨.Goblin, 2, 3⟩)] ⟨1, 1⟩ ⟨2, 1⟩
    ⟨.Elf, 200, 3⟩ ⟨.Goblin, 2, 3⟩ (by decide) (by decide)
  exact h.2.2.1 (by decide)

/-- One unfolding step of the round loop (state given by components). -/
theorem playLoop_succ (fuel : Nat) (gr : Grid) (s : Sprites) (c : Cache)
    (q : List Point) (o : RoundOutcome) :
    Round.playLoop (fuel + 1) ⟨gr, s, c, q⟩ o =
      if q.isEmpty then some (o, ⟨gr, s, c, q⟩)
      else if o.is_finished then some (o, ⟨gr, s, c, q⟩)
      else
        match Round.tick ⟨gr, s, c, q⟩ o with
        | none => none
        | some (o1, st1) => Round.playLoop fuel st1 o1 := rfl

/-- A tick on a battlefield already held by one species is an immediate
mid-round victory. -/
theorem tick_of_victorious (st : RoundState) (o : RoundOutcome) (v : Species)
    (hv : Sprites.victorious st.sprites = some v) :
    Round.tick st o = some (.MidRoundVictory v, st) := by
  unfold Round.tick
  rw [hv]

/-- A round started on a battlefield already held by one species ends in a
mid-round victory without touching the map. -/
theorem playRound_of_victorious (g : Game) (v : Species)
    (hv : Sprites.victorious g.sprites = some v) :
    g.playRound = some (.MidRoundVictory v, g) := by
  have hne : g.sprites.map (·.1) ≠ [] := by
    intro hnil
    unfold Sprites.victorious Sprites.peek at hv
    rw [hnil] at hv
    exact Option.noConfusion hv
  have hlen : 0 < (heapPopList (g.sprites.map (·.1))).length := by
    unfold heapPopList
    rw [List.length_insertionSort]
    exact List.length_pos.mpr hne
  obtain ⟨m, hm⟩ : ∃ m, (heapPopList (g.sprites.map (·.1))).length = m + 1 :=
    ⟨_, (Nat.succ_pred_eq_of_pos hlen).symm⟩
  have hq : ¬ ((heapPopList (g.sprites.map (·.1))).isEmpty = true) := by
    cases hq2 : heapPopList (g.sprites.map (·.1)) with
    | nil => rw [hq2] at hm; exact absurd hm (by simp)
    | cons a l => simp
  have key : Round.playLoop ((heapPopList (g.sprites.map (·.1))).length + 1)
      ⟨g.grid, g.sprites, g.cache, heapPopList (g.sprites.map (·.1))⟩ .NoAction =
      some (.MidRoundVictory v,
        ⟨g.grid, g.sprites, g.cache, heapPopList (g.sprites.map (·.1))⟩) := by
    rw [hm, playLoop_succ, if_neg hq,
      show RoundOutcome.is_finished .NoAction = false from rfl]
    simp only [Bool.false_eq_true, if_false]
    rw [tick_of_victorious _ _ v hv]
    show Round.playLoop (m + 1)
        ⟨g.grid, g.sprites, g.cache, heapPopList (g.sprites.map (·.1))⟩
        (.MidRoundVictory v) = _
    rw [playLoop_succ, if_neg hq]
    rfl
  have key2 : Round.play
      ⟨g.grid, g.sprites, g.cache, heapPopList (g.sprites.map (·.1))⟩ =
      some (.MidRoundVictory v,
        ⟨g.grid, g.sprites, g.cache, heapPopList (g.sprites.map (·.1))⟩) := by
    unfold Round.play
    dsimp only
    rw [key]
    dsimp only [Option.map]
    rw [hv]
    rfl
  unfold Game.playRound
  rw [key2]
  rfl

/-- C4: when a round ends in `MidRoundVictory`, the driving loop reports the
current round number minus one and scores `(round - 1)` times the sum of the
surviving hit points; when it ends in ordinary `Victory`, the full round
number counts and the score is `round` times that sum. -/
theorem c4_run_scoring (g : Game) (n fuel : Nat) (o : RoundOutcome) (g1 : Game)
    (h : g.playRound = some (o, g1)) :
    (∀ s, o = .MidRoundVictory s →
      Game.runAux g n (fuel + 1) =
        some (.ok ⟨s, n - 1, (n - 1) * (g1.sprites.map fun e => e.2.hit_points).sum⟩)) ∧
    (∀ s, o = .Victory s →
      Game.runAux g n (fuel + 1) =
        some (.ok ⟨s, n, n * (g1.sprites.map fun e => e.2.hit_points).sum⟩)) := by
  constructor
  · rintro s rfl
    unfold Game.runAux
    rw [h]
    rfl
  · rintro s rfl
    unfold Game.runAux
    rw [h]
    rfl

/-- C4 witness: a lone-goblin map ends round 3 in mid-round victory and is
scored with 2 completed rounds; a two-sprite map in which the goblin's blow
on the last queue entry fells the last elf ends round 2 in ordinary victory
and is scored with the full 2 rounds. -/
theorem c4_witness :
    mrGame.playRound = some (.MidRoundVictory .Goblin, mrPost) ∧
    Game.runAux mrGame 3 10 =
      some (.ok ⟨.Goblin, 2, 2 * (mrPost.sprites.map fun e => e.2.hit_points).sum⟩) ∧
    vGame.playRound = some (.Victory .Goblin, vPost) ∧
    Game.runAux vGame 2 10 =
      some (.ok ⟨.Goblin, 2, 2 * (vPost.sprites.map fun e => e.2.hit_points).sum⟩) := by
  refine ⟨by decide, ?_, by decide, ?_⟩
  · exact (c4_run_scoring mrGame 3 9 (.MidRoundVictory .Goblin) mrPost (by decide)).1
      .Goblin rfl
  · exact (c4_run_scoring vGame 2 9 (.Victory .Goblin) vPost (by decide)).2 .Goblin rfl

/-- C6: a round whose outcome is `NoAction` makes the driving loop stop with
the fatal `NoMovesRemain` error (not a victory result), and such a round can
only occur on a battlefield that is not already won — a won battlefield
always produces `MidRoundVictory` instead. -/
theorem c6_no_action_raises_no_moves_remain (g : Game) (n fuel : Nat) (g1 : Game)
    (h : g.playRound = some (.NoAction, g1)) :
    Game.runAux g n (fuel + 1) = some (.err .NoMovesRemain) ∧
    Sprites.victorious g.sprites = none := by
  constructor
  · unfold Game.runAux
    rw [h]
  · cases hv : Sprites.victorious g.sprites with
    | none => rfl
    | some v =>
      rw [playRound_of_victorious g v hv] at h
      simp at h

theorem mem_keys_place {s : Sprites} {p q : Point} {x : Sprite} :
    q ∈ (s.place p x).map (·.1) ↔ (q = p ∨ q ∈ s.map (·.1)) := by
  simp only [Sprites.place, Sprites.remove, List.map_cons, List.mem_cons]
  constructor
  · rintro (rfl | hq)
    · exact Or.inl rfl
    · right
      obtain ⟨e, he, rfl⟩ := List.mem_map.mp hq
      exact List.mem_map_of_mem _ (List.mem_of_mem_filter he)
  · rintro (rfl | hq)
    · exact Or.inl rfl
    · by_cases hqp : q = p
      · exact Or.inl hqp
      · right
        obtain ⟨e, he, rfl⟩ := List.mem_map.mp hq
        exact List.mem_map_of_mem _ (List.mem_filter.mpr ⟨he, by simpa using hqp⟩)

/-- Re-placing a sprite at a position that is already occupied does not
change the set of battlefield positions. -/
theorem keys_toFinset_place {s : Sprites} {p : Point} {x : Sprite}
    (hp : p ∈ s.map (·.1)) :
    ((s.place p x).map (·.1)).toFinset = (s.map (·.1)).toFinset := by
  ext q
  simp only [List.mem_toFinset, mem_keys_place]
  constructor
  · rintro (rfl | hq)
    · exact hp
    · exact hq
  · exact Or.inr

/-- A chosen attack target stands at an occupied battlefield position. -/
theorem target_mem_keys {s : Sprites} {loc t : Point}
    (h : Sprites.target s loc = some t) : t ∈ s.map (·.1) := by
  unfold Sprites.target at h
  cases hg : s.get loc with
  | none => rw [hg] at h; cases h
  | some sp =>
    rw [hg] at h
    dsimp only [Option.bind] at h
    cases hh : (List.insertionSort targetRel
        (s.filter fun e => sp.is_enemy e.2 && decide (e.1.distance loc = 1))).head? with
    | none => rw [hh] at h; cases h
    | some e =>
      rw [hh] at h
      have he : e ∈ List.insertionSort targetRel
          (s.filter fun e => sp.is_enemy e.2 && decide (e.1.distance loc = 1)) := by
        cases hl : List.insertionSort targetRel
            (s.filter fun e => sp.is_enemy e.2 && decide (e.1.distance loc = 1)) with
        | nil => rw [hl] at hh; cases hh
        | cons a l =>
          rw [hl] at hh
          cases hh
          exact List.mem_cons_self _ _
      have he2 : e ∈ s := List.mem_of_mem_filter ((List.mem_insertionSort targetRel).mp he)
      have ht : e.1 = t := by
        cases h
        rfl
      rw [← ht]
      exact List.mem_map_of_mem _ he2

/-- C2: any tick that changes the set of occupied battlefield positions —
i.e. performs a successful move or removes a dead sprite — leaves the
pathfinder cache empty, so the next sprite's pathfinder consultation (which
reads this cache) can never be answered from an entry computed before the
mutation; ticks that mutate nothing keep only entries computed on the
current battlefield. -/
theorem c2_mutating_tick_clears_cache (st : RoundState) (o o1 : RoundOutcome)
    (st1 : RoundState) (h : Round.tick st o = some (o1, st1))
    (hmut : (st1.sprites.map (·.1)).toFinset ≠ (st.sprites.map (·.1)).toFinset) :
    st1.cache = [] := by
  unfold Round.tick at h
  cases hv : Sprites.victorious st.sprites with
  | some v =>
    rw [hv] at h
    dsimp only at h
    simp only [Option.some.injEq, Prod.mk.injEq] at h
    obtain ⟨rfl, rfl⟩ := h
    exact absurd rfl hmut
  | none =>
    rw [hv] at h
    dsimp only at h
    cases hqu : st.queue with
    | nil =>
      rw [hqu] at h
      dsimp only at h
      simp only [Option.some.injEq, Prod.mk.injEq] at h
      obtain ⟨rfl, rfl⟩ := h
      exact absurd rfl hmut
    | cons location rest =>
      rw [hqu] at h
      dsimp only at h
      cases hd : (Round.direction st.grid st.sprites st.cache location).1 with
      | some d =>
        rw [hd] at h
        dsimp only at h
        cases hs : Sprites.step st.sprites location d with
        | none => rw [hs] at h; cases h
        | some s1 =>
          rw [hs] at h
          dsimp only at h
          cases ht : Sprites.target s1 (location.step d) with
          | none =>
            rw [ht] at h
            simp only [Option.some.injEq, Prod.mk.injEq] at h
            obtain ⟨rfl, rfl⟩ := h
            rfl
          | some t =>
            rw [ht] at h
            dsimp only at h
            cases ha : Sprites.attack s1 (location.step d) t with
            | none => rw [ha] at h; cases h
            | some r =>
              rw [ha] at h
              obtain ⟨status, s2⟩ := r
              cases status with
              | Dead =>
                simp only [Option.some.injEq, Prod.mk.injEq] at h
                obtain ⟨rfl, rfl⟩ := h
                rfl
              | Alive hp =>
                simp only [Option.some.injEq, Prod.mk.injEq] at h
                obtain ⟨rfl, rfl⟩ := h
                rfl
      | none =>
        rw [hd] at h
        dsimp only at h
        cases ht : Sprites.target st.sprites location with
        | none =>
          rw [ht] at h
          simp only [Option.some.injEq, Prod.mk.injEq] at h
          obtain ⟨rfl, rfl⟩ := h
          exact absurd rfl hmut
        | some t =>
          rw [ht] at h
          dsimp only at h
          cases ha : Sprites.attack st.sprites location t with
          | none => rw [ha] at h; cases h
          | some r =>
            rw [ha] at h
            obtain ⟨status, s2⟩ := r
            cases status with
            | Dead =>
              simp only [Option.some.injEq, Prod.mk.injEq] at h
              obtain ⟨rfl, rfl⟩ := h
              rfl
            | Alive hp =>
              simp only [Option.some.injEq, Prod.mk.injEq] at h
              obtain ⟨rfl, rfl⟩ := h
              -- an `Alive` wound replaces the victim in place: the key set
              -- is unchanged, contradicting the mutation hypothesis
              exfalso
              apply hmut
              unfold Sprites.attack at ha
              cases hga : st.sprites.get location with
              | none => rw [hga] at ha; cases ha
              | some agg =>
                rw [hga] at ha
                cases hgt : st.sprites.get t with
                | none => rw [hgt] at ha; cases ha
                | some victim =>
                  rw [hgt] at ha
                  dsimp only at ha
                  cases hw : (victim.wound agg.attack).1 with
                  | Dead => rw [hw] at ha; cases ha
                  | Alive h2 =>
                    rw [hw] at ha
                    dsimp only at ha
                    simp only [Option.some.injEq, Prod.mk.injEq] at ha
                    rw [← ha.2]
                    exact keys_toFinset_place (target_mem_keys ht)

/-- C2 witness: a tick in which an elf kills the adjacent goblin, starting
from a non-empty pathfinder cache, ends with the cache cleared. -/
theorem c2_witness : c2Post.cache = [] :=
  c2_mutating_tick_clears_cache c2St .NoAction .Casualty c2Post (by decide) (by decide)

theorem target_none_of_get_none {s : Sprites} {loc : Point} (h : s.get loc = none) :
    Sprites.target s loc = none := by
  unfold Sprites.target
  rw [h]
  rfl

theorem target_some_get_loc {s : Sprites} {loc t : Point}
    (h : Sprites.target s loc = some t) : (s.get loc).isSome = true := by
  cases hg : s.get loc with
  | none => rw [target_none_of_get_none hg] at h; cases h
  | some sp => rfl

theorem get_isSome_of_mem_keys {s : Sprites} {p : Point} (h : p ∈ s.map (·.1)) :
    (s.get p).isSome = true := by
  obtain ⟨e, he, rfl⟩ := List.mem_map.mp h
  exact get_isSome_of_mem (x := e.2) (by rw [Prod.mk.eta]; exact he)

theorem attack_isSome {s : Sprites} {a t : Point}
    (h1 : (s.get a).isSome = true) (h2 : (s.get t).isSome = true) :
    (Sprites.attack s a t).isSome = true := by
  unfold Sprites.attack
  cases hga : s.get a with
  | none => rw [hga] at h1; cases h1
  | some agg =>
    cases hgt : s.get t with
    | none => rw [hgt] at h2; cases h2
    | some victim =>
      dsimp only
      cases hw : (victim.wound agg.attack).1 with
      | Dead => rfl
      | Alive hp => rfl

theorem direction_some_get {g : Grid} {s : Sprites} {c : Cache} {loc : Point} {d : Direction}
    (h : (Round.direction g s c loc).1 = some d) : (s.get loc).isSome = true := by
  unfold Round.direction at h
  cases ht : Sprites.target s loc with
  | some t => rw [ht] at h; cases h
  | none =>
    rw [ht] at h
    cases hg : s.get loc with
    | none => rw [hg] at h; cases h
    | some sp => rfl

/-- None of the partial operations inside a tick is ever invoked outside its
domain: `tick` always produces a successor state. -/
theorem tick_isSome (st : RoundState) (o : RoundOutcome) :
    (Round.tick st o).isSome = true := by
  unfold Round.tick
  cases hv : Sprites.victorious st.sprites with
  | some v => rfl
  | none =>
    cases hqu : st.queue with
    | nil => rfl
    | cons location rest =>
      dsimp only
      cases hd : (Round.direction st.grid st.sprites st.cache location).1 with
      | some d =>
        dsimp only
        have hg := direction_some_get hd
        cases hgs : st.sprites.get location with
        | none => rw [hgs] at hg; cases hg
        | some sprite =>
          have hstep : Sprites.step st.sprites location d =
              some ((st.sprites.remove location).place (location.step d) sprite) := by
            unfold Sprites.step
            rw [hgs]
            rfl
          rw [hstep]
          dsimp only
          cases ht : Sprites.target
              ((st.sprites.remove location).place (location.step d) sprite)
              (location.step d) with
          | none => rfl
          | some t =>
            dsimp only
            have h1 := target_some_get_loc ht
            have h2 := get_isSome_of_mem_keys (target_mem_keys ht)
            have ha := attack_isSome h1 h2
            cases haa : Sprites.attack
                ((st.sprites.remove location).place (location.step d) sprite)
                (location.step d) t with
            | none => rw [haa] at ha; cases ha
            | some r =>
              obtain ⟨status, s2⟩ := r
              cases status <;> rfl
      | none =>
        dsimp only
        cases ht : Sprites.target st.sprites location with
        | none => rfl
        | some t =>
          dsimp only
          have h1 := target_some_get_loc ht
          have h2 := get_isSome_of_mem_keys (target_mem_keys ht)
          have ha := attack_isSome h1 h2
          cases haa : Sprites.attack st.sprites location t with
          | none => rw [haa] at ha; cases ha
          | some r =>
            obtain ⟨status, s2⟩ := r
            cases status <;> rfl

/-- Popping a queue entry whose square is vacant performs no move and no
attack: only the queue shrinks. -/
theorem tick_skip (st : RoundState) (o : RoundOutcome) (location : Point)
    (rest : List Point) (hq : st.queue = location :: rest)
    (hg : st.sprites.get location = none)
    (hv : Sprites.victorious st.sprites = none) :
    Round.tick st o = some (o, ⟨st.grid, st.sprites, st.cache, rest⟩) := by
  unfold Round.tick
  rw [hv, hq]
  dsimp only
  have hd : Round.direction st.grid st.sprites st.cache location = (none, st.cache) := by
    unfold Round.direction
    rw [target_none_of_get_none hg, hg]
  rw [hd]
  dsimp only
  rw [target_none_of_get_none hg]

/-- C10 (amended): during round processing the engine's partial operations
are never invoked outside their domain — `tick` always succeeds (every move
removes a sprite that is present, every attack looks up sprites that are
present); and when the popped round-start position holds no sprite at all
(its original occupant died or moved away and nobody re-entered the square),
the tick performs no move and no attack for that position, leaving map and
cache untouched.  (If another sprite has re-entered the square, that sprite
acts — see the counterexample.) -/
theorem c10_tick_totality (st : RoundState) (o : RoundOutcome) :
    (Round.tick st o).isSome = true ∧
    (∀ location rest, st.queue = location :: rest →
      st.sprites.get location = none →
      Sprites.victorious st.sprites = none →
      Round.tick st o = some (o, ⟨st.grid, st.sprites, st.cache, rest⟩)) :=
  ⟨tick_isSome st o,
   fun location rest hq hg hv => tick_skip st o location rest hq hg hv⟩

/-- C10 witness: popping the vacant square (5,5) changes nothing but the
queue. -/
theorem c10_witness :
    (Round.tick c10St .NoAction).isSome = true ∧
    Round.tick c10St .NoAction =
      some (.NoAction, ⟨c10St.grid, c10St.sprites, c10St.cache, []⟩) :=
  ⟨(c10_tick_totality c10St .NoAction).1,
   (c10_tick_totality c10St .NoAction).2 ⟨5, 5⟩ [] rfl (by decide) (by decide)⟩

/-- C10 (counterexample): in the double-turn fixture the popped round-start
position (1,2) no longer holds its original sprite (the goblin with 2 hit
points died earlier in the round), yet the tick is *not* a no-op: the elf
that had already moved onto (1,2) moves again to (2,2) and attacks the
goblin at (3,2). -/
theorem c10_counterexample :
    ((Round.tick exSt0 .NoAction).bind fun r1 => Round.tick r1.2 r1.1) =
      some (.Casualty, exSt2) ∧
    exSt0.sprites.get ⟨1, 2⟩ = some ⟨.Goblin, 2, 3⟩ ∧
    exSt2.queue = ⟨1, 2⟩ :: [⟨3, 2⟩] ∧
    exSt2.sprites.get ⟨1, 2⟩ = some ⟨.Elf, 200, 4⟩ ∧
    Round.tick exSt2 .Casualty = some (.Casualty, exSt3) ∧
    exSt3.sprites.get ⟨1, 2⟩ = none ∧
    exSt3.sprites.get ⟨2, 2⟩ = some ⟨.Elf, 200, 4⟩ ∧
    exSt3.sprites.get ⟨3, 2⟩ = some ⟨.Goblin, 196, 3⟩ := by
  decide

/-- C1 (code bug demonstration): the round queue of the fixture is the
round-start positions in reading order, but replaying the full round shows
the elf that started at (0,2) (the only sprite with attack power 4) finishes
at (2,2) — two squares away — having also been wounded by the goblin it
reached: a single per-round turn can move a sprite at most one square, so
this sprite was given further turns after its move, through the dead
goblin's still-queued position (1,2). -/
theorem c1_moved_sprite_acts_again :
    heapPopList (exGame.sprites.map (·.1)) = [⟨1, 1⟩, ⟨0, 2⟩, ⟨1, 2⟩, ⟨3, 2⟩] ∧
    exGame.sprites.get ⟨0, 2⟩ = some ⟨.Elf, 200, 4⟩ ∧
    (Game.playRound exGame).map
        (fun r => (r.1, r.2.sprites.get ⟨2, 2⟩, r.2.sprites.get ⟨0, 2⟩,
          r.2.sprites.get ⟨1, 1⟩)) =
      some (.Casualty, some ⟨.Elf, 197, 4⟩, none, some ⟨.Elf, 200, 3⟩) := by
  decide

/-- C3 (code bug demonstration): in an open room the elf at (3,2) has no
adjacent enemy; the nearest in-range squares include both (2,3) and (5,2) at
distance 2 (the square (5,2) is reachable in two open steps Right, Right)
and (5,2) comes first in reading order — yet the search returns destination
(2,3) with first step Left, because its queue pops the Left-seeded frontier
before the Right-seeded one. -/
theorem c3_path_not_reading_order_first :
    Sprites.target c3Sprites ⟨3, 2⟩ = none ∧
    calculate_shortest_path c3Grid c3Sprites ⟨3, 2⟩ = some ⟨⟨2, 3⟩, .Left, 2⟩ ∧
    ⟨5, 2⟩ ∈ target_points c3Grid c3Sprites .Elf ∧
    is_occupied c3Grid c3Sprites ⟨4, 2⟩ = false ∧
    is_occupied c3Grid c3Sprites ⟨5, 2⟩ = false ∧
    ((⟨3, 2⟩ : Point).step .Right).step .Right = ⟨5, 2⟩ ∧
    (⟨5, 2⟩ : Point).y < (⟨2, 3⟩ : Point).y := by
  decide

theorem targetCmp_eq_gt {a b : Point × Sprite} :
    targetCmp a b = .gt ↔
      (b.2.hit_points < a.2.hit_points ∨
       (a.2.hit_points = b.2.hit_points ∧
         (b.1.y < a.1.y ∨ (b.1.y = a.1.y ∧ b.1.x < a.1.x)))) := by
  unfold targetCmp
  rw [then_eq_gt, ncmp_eq_gt, ncmp_eq_eq, swap_eq_gt, cmp_eq_lt]

theorem point_ext {p q : Point} (hx : p.x = q.x) (hy : p.y = q.y) : p = q := by
  cases p; cases q; simp_all

instance : IsTotal (Point × Sprite) targetRel :=
  ⟨fun a b => by
    unfold targetRel
    rw [targetCmp_eq_gt, targetCmp_eq_gt]
    omega⟩

instance : IsTrans (Point × Sprite) targetRel :=
  ⟨fun a b c hab hbc => by
    unfold targetRel at hab hbc ⊢
    rw [targetCmp_eq_gt] at hab hbc ⊢
    omega⟩

/-- The sort comparator is strict on entries at distinct positions. -/
theorem targetRel_strict {t e : Point × Sprite} (h : targetRel t e) (hne : t.1 ≠ e.1) :
    t.2.hit_points < e.2.hit_points ∨
      (t.2.hit_points = e.2.hit_points ∧
        (t.1.y < e.1.y ∨ (t.1.y = e.1.y ∧ t.1.x < e.1.x))) := by
  unfold targetRel at h
  rw [targetCmp_eq_gt] at h
  have hxy : ¬ (t.1.x = e.1.x ∧ t.1.y = e.1.y) :=
    fun hh => hne (point_ext hh.1 hh.2)
  omega

/-- C5: for a sprite on the battlefield, `Map::target` returns `none`
exactly when no enemy stands at distance 1 from its position, and any chosen
target is an adjacent enemy that strictly minimises (hit points, then
reading order of position) among all adjacent enemies at other positions —
lowest hit points first, ties broken topmost-then-leftmost. -/
theorem c5_attack_target_selection (s : Sprites) (location : Point) (sprite : Sprite)
    (hs : s.get location = some sprite) :
    (Sprites.target s location = none ↔
      s.filter (fun e => sprite.is_enemy e.2 && decide (e.1.distance location = 1)) = []) ∧
    (∀ t, Sprites.target s location = some t →
      ∃ tsp, (t, tsp) ∈ s ∧ sprite.is_enemy tsp = true ∧ t.distance location = 1 ∧
        ∀ e ∈ s, sprite.is_enemy e.2 = true → e.1.distance location = 1 → e.1 ≠ t →
          (tsp.hit_points < e.2.hit_points ∨
           (tsp.hit_points = e.2.hit_points ∧
             (t.y < e.1.y ∨ (t.y = e.1.y ∧ t.x < e.1.x))))) := by
  have hunfold : Sprites.target s location =
      (List.insertionSort targetRel
        (s.filter fun e =>
          sprite.is_enemy e.2 && decide (e.1.distance location = 1))).head?.map (·.1) := by
    unfold Sprites.target
    rw [hs]
    rfl
  constructor
  · rw [hunfold]
    constructor
    · intro h
      cases hsort : List.insertionSort targetRel
          (s.filter fun e =>
            sprite.is_enemy e.2 && decide (e.1.distance location = 1)) with
      | nil =>
        have hlen := List.Perm.length_eq
          (List.perm_insertionSort targetRel
            (s.filter fun e => sprite.is_enemy e.2 && decide (e.1.distance location = 1)))
        rw [hsort] at hlen
        exact List.eq_nil_of_length_eq_zero hlen.symm
      | cons en restS => rw [hsort] at h; cases h
    · intro h
      rw [h]
      rfl
  · intro t ht
    rw [hunfold] at ht
    cases hsort : List.insertionSort targetRel
        (s.filter fun e =>
          sprite.is_enemy e.2 && decide (e.1.distance location = 1)) with
    | nil => rw [hsort] at ht; cases ht
    | cons en restS =>
      rw [hsort] at ht
      have hent : en.1 = t := Option.some.inj ht
      have hmem : en ∈ s.filter fun e =>
          sprite.is_enemy e.2 && decide (e.1.distance location = 1) := by
        rw [← List.mem_insertionSort targetRel
          (l := s.filter fun e => sprite.is_enemy e.2 && decide (e.1.distance location = 1))]
        rw [hsort]
        exact List.mem_cons_self _ _
      have hsorted := List.sorted_insertionSort targetRel
        (s.filter fun e => sprite.is_enemy e.2 && decide (e.1.distance location = 1))
      rw [hsort] at hsorted
      have hpred := (List.mem_filter.mp hmem).2
      rw [Bool.and_eq_true] at hpred
      refine ⟨en.2, ?_, hpred.1, ?_, ?_⟩
      · rw [← hent, Prod.mk.eta]
        exact List.mem_of_mem_filter hmem
      · rw [← hent]
        exact of_decide_eq_true hpred.2
      · intro e he hene hedist hneq
        have hemem : e ∈ s.filter fun e =>
            sprite.is_enemy e.2 && decide (e.1.distance location = 1) :=
          List.mem_filter.mpr ⟨he, by rw [Bool.and_eq_true, hene, decide_eq_true_eq]
                                      exact ⟨rfl, hedist⟩⟩
        have hin : e ∈ List.insertionSort targetRel
            (s.filter fun e => sprite.is_enemy e.2 && decide (e.1.distance location = 1)) :=
          (List.mem_insertionSort targetRel).mpr hemem
        rw [hsort] at hin
        rcases List.mem_cons.mp hin with rfl | hrest
        · exact absurd hent hneq
        · have hrel : targetRel en e := List.rel_of_sorted_cons hsorted e hrest
          have hstrict := targetRel_strict hrel
            (by rw [hent]; exact fun hh => hneq hh.symm)
          rw [hent] at hstrict
          exact hstrict

/-- C5 witness: the elf at (2,2) faces a 50-hp goblin above and two 20-hp
goblins left and right; the chosen target is the left one (1,2) — lowest hit
points, reading-order tie-break. -/
theorem c5_witness :
    Sprites.target c5Sprites ⟨2, 2⟩ = some ⟨1, 2⟩ ∧
    ∃ tsp, (⟨1, 2⟩, tsp) ∈ c5Sprites ∧
      (Sprite.mk .Elf 200 3).is_enemy tsp = true ∧
      Point.distance ⟨1, 2⟩ ⟨2, 2⟩ = 1 ∧
      ∀ e ∈ c5Sprites, (Sprite.mk .Elf 200 3).is_enemy e.2 = true →
        e.1.distance ⟨2, 2⟩ = 1 → e.1 ≠ ⟨1, 2⟩ →
          (tsp.hit_points < e.2.hit_points ∨
           (tsp.hit_points = e.2.hit_points ∧
             ((⟨1, 2⟩ : Point).y < e.1.y ∨
              ((⟨1, 2⟩ : Point).y = e.1.y ∧ (⟨1, 2⟩ : Point).x < e.1.x)))) := by
  refine ⟨by decide, ?_⟩
  exact (c5_attack_target_selection c5Sprites ⟨2, 2⟩ ⟨.Elf, 200, 3⟩ (by decide)).2
    ⟨1, 2⟩ (by decide)

/-- C6 witness: on the deadlocked `#E#G#` map the round outcome is
`NoAction`, `run` raises `NoMovesRemain`, and the battlefield is not won. -/
theorem c6_witness :
    Game.runAux dlGame 1 5 = some (.err .NoMovesRemain) ∧
    Sprites.victorious dlGame.sprites = none := by
  have hpost : dlGame.playRound =
      some (.NoAction,
        ⟨dlGame.grid, dlGame.sprites,
         [((Species.Goblin, ⟨3, 1⟩), none), ((Species.Elf, ⟨1, 1⟩), none)]⟩) := by
    decide
  exact ⟨(c6_no_action_raises_no_moves_remain dlGame 1 4 _ hpost).1,
         (c6_no_action_raises_no_moves_remain dlGame 1 4 _ hpost).2⟩

/-- C9 (counterexample): the claim quantifies over every rectangular map
enclosed by a wall border; on a 5×5 all-wall map with one open centre square
(a two-thick border), rendering the parsed map produces a 3×3 text — the
renderer only spans the open squares' bounding box plus a margin of one — so
the round trip loses the outer wall ring, and per-line whitespace trimming
cannot repair a changed line count. -/
theorem c9_counterexample :
    (MapBuilder.build SpriteBuilder.default thickLines).map
        (fun m => mapAsciiTrim (Map.render m.1 m.2)) =
      some [['#', '#', '#'], ['#', '.', '#'], ['#', '#', '#']] ∧
    ¬ mapAsciiTrim thickLines = [['#', '#', '#'], ['#', '.', '#'], ['#', '#', '#']] := by
  decide

theorem mem_grid_insert_empty {g : Grid} {q p : Point} :
    p ∈ Grid.insert g q .Empty ↔ (p = q ∨ p ∈ g) := by
  show p ∈ (if q ∈ g then g else q :: g) ↔ _
  split
  · next hq =>
    constructor
    · exact Or.inr
    · rintro (rfl | hp)
      · exact hq
      · exact hp
  · next hq => exact List.mem_cons

theorem mem_grid_insert_wall {g : Grid} {q p : Point} :
    p ∈ Grid.insert g q .Wall ↔ (p ∈ g ∧ ¬ p = q) := by
  show p ∈ g.filter (fun r => decide (¬ r = q)) ↔ _
  rw [List.mem_filter]
  simp

theorem dropWhile_ws_eq_self {l : List Char} (h : ∀ c ∈ l, c.isWhitespace = false) :
    l.dropWhile Char.isWhitespace = l := by
  cases l with
  | nil => rfl
  | cons a l2 =>
    rw [List.dropWhile_cons, if_neg]
    rw [h a (List.mem_cons_self _ _)]
    exact Bool.false_ne_true

theorem trimLine_eq_self {l : List Char} (h : ∀ c ∈ l, c.isWhitespace = false) :
    trimLine l = l := by
  unfold trimLine
  rw [dropWhile_ws_eq_self h,
    dropWhile_ws_eq_self (fun c hc => h c (List.mem_reverse.mp hc))]
  exact List.reverse_reverse l

theorem valid_not_whitespace {c : Char}
    (h : c = '.' ∨ c = '#' ∨ c = 'E' ∨ c = 'G') : c.isWhitespace = false := by
  rcases h with rfl | rfl | rfl | rfl <;> decide

/-- Processing one character of a line: the accumulator is updated at the
single cell `(x, y)` and nowhere else. -/
theorem buildLine_cons_step (b : SpriteBuilder) (y x : Int) (c : Char)
    (cs2 : List Char) (g : Grid) (s : Sprites)
    (hc : c = '.' ∨ c = '#' ∨ c = 'E' ∨ c = 'G') :
    ∃ g' s', buildLine b y x (c :: cs2) (g, s) = buildLine b y (x + 1) cs2 (g', s') ∧
      (∀ p : Point, ¬ p = ⟨x, y⟩ → ((p ∈ g' ↔ p ∈ g) ∧ s'.get p = s.get p)) ∧
      ((⟨x, y⟩ : Point) ∈ g' ↔ ¬ c = '#') ∧
      s'.get ⟨x, y⟩ = (if c = 'E' then some (b.build .Elf)
                       else if c = 'G' then some (b.build .Goblin)
                       else s.get ⟨x, y⟩) := by
  rcases hc with rfl | rfl | rfl | rfl
  · refine ⟨g.insert ⟨x, y⟩ .Empty, s, rfl, fun p hp => ?_, ?_, rfl⟩
    · rw [mem_grid_insert_empty]
      exact ⟨⟨fun hh => hh.resolve_left hp, Or.inr⟩, rfl⟩
    · rw [mem_grid_insert_empty]
      simp
  · refine ⟨g.insert ⟨x, y⟩ .Wall, s, rfl, fun p hp => ?_, ?_, rfl⟩
    · rw [mem_grid_insert_wall]
      exact ⟨⟨fun hh => hh.1, fun hh => ⟨hh, hp⟩⟩, rfl⟩
    · rw [mem_grid_insert_wall]
      simp
  · refine ⟨g.insert ⟨x, y⟩ .Empty, s.place ⟨x, y⟩ (b.build .Elf), rfl,
      fun p hp => ?_, ?_, ?_⟩
    · rw [mem_grid_insert_empty, get_place]
      exact ⟨⟨fun hh => hh.resolve_left hp, Or.inr⟩, by rw [if_neg hp]⟩
    · rw [mem_grid_insert_empty]
      simp
    · rw [get_place, if_pos rfl]
      rfl
  · refine ⟨g.insert ⟨x, y⟩ .Empty, s.place ⟨x, y⟩ (b.build .Goblin), rfl,
      fun p hp => ?_, ?_, ?_⟩
    · rw [mem_grid_insert_empty, get_place]
      exact ⟨⟨fun hh => hh.resolve_left hp, Or.inr⟩, by rw [if_neg hp]⟩
    · rw [mem_grid_insert_empty]
      simp
    · rw [get_place, if_pos rfl]
      rfl

/-- Characterisation of one parsed line: the cells of row `y` at columns
`x … x + cs.length - 1` are set from the characters; every other point keeps
the accumulator's value. -/
theorem buildLine_spec (b : SpriteBuilder) (y : Int) (cs : List Char) :
    ∀ (x : Int) (g : Grid) (s : Sprites),
    (∀ c ∈ cs, c = '.' ∨ c = '#' ∨ c = 'E' ∨ c = 'G') →
    ∃ g1 s1, buildLine b y x cs (g, s) = some (g1, s1) ∧
      ∀ p : Point,
        (¬ (p.y = y ∧ x ≤ p.x ∧ p.x < x + cs.length) →
          ((p ∈ g1 ↔ p ∈ g) ∧ s1.get p = s.get p)) ∧
        (p.y = y → x ≤ p.x → p.x < x + cs.length →
          ∃ c, cs[(p.x - x).toNat]? = some c ∧
            (p ∈ g1 ↔ ¬ c = '#') ∧
            s1.get p = (if c = 'E' then some (b.build .Elf)
                        else if c = 'G' then some (b.build .Goblin)
                        else s.get p)) := by
  induction cs with
  | nil =>
    intro x g s _
    refine ⟨g, s, rfl, fun p => ⟨fun _ => ⟨Iff.rfl, rfl⟩, fun _ hx1 hx2 => ?_⟩⟩
    exfalso
    simp only [List.length_nil] at hx2
    omega
  | cons c cs2 ih =>
    intro x g s hvalid
    obtain ⟨g', s', hstep, hother, hgq, hsq⟩ :=
      buildLine_cons_step b y x c cs2 g s (hvalid c (List.mem_cons_self _ _))
    obtain ⟨g1, s1, heq, hspec⟩ :=
      ih (x + 1) g' s' (fun d hd => hvalid d (List.mem_cons_of_mem _ hd))
    refine ⟨g1, s1, by rw [hstep]; exact heq, fun p => ⟨?_, ?_⟩⟩
    · intro hout
      have hout2 : ¬ (p.y = y ∧ x + 1 ≤ p.x ∧ p.x < (x + 1) + cs2.length) := by
        intro hh
        apply hout
        refine ⟨hh.1, by omega, ?_⟩
        simp only [List.length_cons]
        push_cast
        omega
      have hpq : ¬ p = (⟨x, y⟩ : Point) := by
        intro hp
        apply hout
        subst hp
        refine ⟨rfl, le_refl _, ?_⟩
        simp only [List.length_cons]
        push_cast
        omega
      obtain ⟨hg01, hs01⟩ := (hspec p).1 hout2
      obtain ⟨hg00, hs00⟩ := hother p hpq
      exact ⟨hg01.trans hg00, hs01.trans hs00⟩
    · intro hy hx1 hx2
      by_cases hx : p.x = x
      · have hp : p = (⟨x, y⟩ : Point) := point_ext hx hy
        have hout2 : ¬ (p.y = y ∧ x + 1 ≤ p.x ∧ p.x < (x + 1) + cs2.length) := by
          intro hh
          omega
        obtain ⟨hg01, hs01⟩ := (hspec p).1 hout2
        refine ⟨c, ?_, ?_, ?_⟩
        · have h0 : (p.x - x).toNat = 0 := by omega
          rw [h0, List.getElem?_cons_zero]
        · rw [hg01, hp]
          exact hgq
        · rw [hs01, hp]
          exact hsq
      · have hxgt : x + 1 ≤ p.x := by omega
        have hx2b : p.x < (x + 1) + cs2.length := by
          simp only [List.length_cons] at hx2
          push_cast at hx2 ⊢
          omega
        obtain ⟨c2, hc2, hg2, hs2⟩ := (hspec p).2 hy hxgt hx2b
        have hpq : ¬ p = (⟨x, y⟩ : Point) := by
          intro hp
          apply hx
          rw [hp]
        have hidx : (p.x - x).toNat = (p.x - (x + 1)).toNat + 1 := by omega
        refine ⟨c2, ?_, hg2, ?_⟩
        · rw [hidx, List.getElem?_cons_succ]
          exact hc2
        · rw [hs2, (hother p hpq).2]

/-- Characterisation of the parsed map: the cell of each line determines the
grid membership and the sprite at its point; every other point keeps the
accumulator's value. -/
theorem buildLines_spec (b : SpriteBuilder) (ls : List (List Char)) :
    ∀ (y : Int) (g : Grid) (s : Sprites),
    (∀ l ∈ ls, ∀ c ∈ l, c = '.' ∨ c = '#' ∨ c = 'E' ∨ c = 'G') →
    (∀ l ∈ ls, ¬ l = []) →
    ∃ g1 s1, buildLines b y ls (g, s) = some (g1, s1) ∧
      ∀ p : Point,
        (¬ (y ≤ p.y ∧ p.y < y + ls.length) →
          ((p ∈ g1 ↔ p ∈ g) ∧ s1.get p = s.get p)) ∧
        (y ≤ p.y → p.y < y + ls.length →
          ∃ row, ls[(p.y - y).toNat]? = some row ∧
            ((0 ≤ p.x ∧ p.x < row.length) →
              ∃ c, row[p.x.toNat]? = some c ∧
                (p ∈ g1 ↔ ¬ c = '#') ∧
                s1.get p = (if c = 'E' then some (b.build .Elf)
                            else if c = 'G' then some (b.build .Goblin)
                            else s.get p)) ∧
            (¬ (0 ≤ p.x ∧ p.x < row.length) →
              ((p ∈ g1 ↔ p ∈ g) ∧ s1.get p = s.get p))) := by
  induction ls with
  | nil =>
    intro y g s _ _
    refine ⟨g, s, rfl, fun p => ⟨fun _ => ⟨Iff.rfl, rfl⟩, fun hy1 hy2 => ?_⟩⟩
    exfalso
    simp only [List.length_nil] at hy2
    omega
  | cons row ls2 ih =>
    intro y g s hvalid hne
    have htrim : trimLine row = row :=
      trimLine_eq_self fun c hc =>
        valid_not_whitespace (hvalid row (List.mem_cons_self _ _) c hc)
    have hrow_ne : ¬ row = [] := hne row (List.mem_cons_self _ _)
    have hne2 : ¬ (row.isEmpty = true) := by
      cases row with
      | nil => exact absurd rfl hrow_ne
      | cons a r => simp
    obtain ⟨gm, sm, heq1, hspec1⟩ := buildLine_spec b y row 0 g s
      (hvalid row (List.mem_cons_self _ _))
    obtain ⟨g1, s1, heq2, hspec2⟩ := ih (y + 1) gm sm
      (fun l hl => hvalid l (List.mem_cons_of_mem _ hl))
      (fun l hl => hne l (List.mem_cons_of_mem _ hl))
    have hstep : buildLines b y (row :: ls2) (g, s) =
        match buildLine b y 0 row (g, s) with
        | none => none
        | some acc1 => buildLines b (y + 1) ls2 acc1 := by
      show (if (trimLine row).isEmpty then buildLines b (y + 1) ls2 (g, s)
            else match buildLine b y 0 (trimLine row) (g, s) with
                 | none => none
                 | some acc1 => buildLines b (y + 1) ls2 acc1) = _
      rw [htrim, if_neg hne2]
    refine ⟨g1, s1, by rw [hstep, heq1]; exact heq2, fun p => ⟨?_, ?_⟩⟩
    · intro hout
      have houty : ¬ (p.y = y ∧ (0 : Int) ≤ p.x ∧ p.x < 0 + row.length) := by
        intro hh
        apply hout
        refine ⟨le_of_eq hh.1.symm, ?_⟩
        simp only [List.length_cons]
        push_cast
        omega
      have hout2 : ¬ (y + 1 ≤ p.y ∧ p.y < (y + 1) + ls2.length) := by
        intro hh
        apply hout
        refine ⟨by omega, ?_⟩
        simp only [List.length_cons]
        push_cast
        omega
      obtain ⟨hg01, hs01⟩ := (hspec2 p).1 hout2
      obtain ⟨hg00, hs00⟩ := (hspec1 p).1 houty
      exact ⟨hg01.trans hg00, hs01.trans hs00⟩
    · intro hy1 hy2
      by_cases hyy : p.y = y
      · have hidx0 : (p.y - y).toNat = 0 := by omega
        have hout2 : ¬ (y + 1 ≤ p.y ∧ p.y < (y + 1) + ls2.length) := by
          intro hh
          omega
        obtain ⟨hg01, hs01⟩ := (hspec2 p).1 hout2
        refine ⟨row, by rw [hidx0, List.getElem?_cons_zero], ?_, ?_⟩
        · intro hx
          have hx0 : (0 : Int) ≤ p.x := hx.1
          have hxlt : p.x < 0 + (row.length : Int) := by omega
          obtain ⟨c, hc, hgc, hsc⟩ := (hspec1 p).2 hyy hx0 hxlt
          have hsub : (p.x - 0).toNat = p.x.toNat := by omega
          rw [hsub] at hc
          exact ⟨c, hc, hg01.trans hgc, by rw [hs01, hsc]⟩
        · intro hx
          have houty : ¬ (p.y = y ∧ (0 : Int) ≤ p.x ∧ p.x < 0 + row.length) := by
            intro hh
            exact hx ⟨hh.2.1, by omega⟩
          obtain ⟨hg00, hs00⟩ := (hspec1 p).1 houty
          exact ⟨hg01.trans hg00, hs01.trans hs00⟩
      · have hy1b : y + 1 ≤ p.y := by omega
        have hy2b : p.y < (y + 1) + ls2.length := by
          simp only [List.length_cons] at hy2
          push_cast at hy2 ⊢
          omega
        have houty : ¬ (p.y = y ∧ (0 : Int) ≤ p.x ∧ p.x < 0 + row.length) := by
          intro hh
          exact hyy hh.1
        obtain ⟨hgm, hsm⟩ := (hspec1 p).1 houty
        obtain ⟨row2, hrow2, hin2, hout2c⟩ := (hspec2 p).2 hy1b hy2b
        have hidx : (p.y - y).toNat = (p.y - (y + 1)).toNat + 1 := by omega
        refine ⟨row2, by rw [hidx, List.getElem?_cons_succ]; exact hrow2, ?_, ?_⟩
        · intro hx
          obtain ⟨c, hc, hgc, hsc⟩ := hin2 hx
          exact ⟨c, hc, hgc, by rw [hsc, hsm]⟩
        · intro hx
          obtain ⟨hg01, hs01⟩ := hout2c hx
          exact ⟨hg01.trans hgm, hs01.trans hsm⟩

/-- Top-level characterisation of `MapBuilder::build`: a point is open
ground iff its character is a non-wall, and it holds a freshly built sprite
iff its character is a sprite glyph. -/
theorem build_charAt (b : SpriteBuilder) (lines : List (List Char))
    (hvalid : ∀ l ∈ lines, ∀ c ∈ l, c = '.' ∨ c = '#' ∨ c = 'E' ∨ c = 'G')
    (hne : ∀ l ∈ lines, ¬ l = []) :
    ∃ g1 s1, MapBuilder.build b lines = some (g1, s1) ∧
      ∀ p : Point,
        (p ∈ g1 ↔ ∃ c, charAt lines p = some c ∧ ¬ c = '#') ∧
        s1.get p = (match charAt lines p with
                    | some c => if c = 'E' then some (b.build .Elf)
                                else if c = 'G' then some (b.build .Goblin)
                                else none
                    | none => none) := by
  obtain ⟨g1, s1, heq, hspec⟩ := buildLines_spec b lines 0 [] [] hvalid hne
  refine ⟨g1, s1, heq, fun p => ?_⟩
  by_cases hy : 0 ≤ p.y ∧ p.y < (lines.length : Int)
  · obtain ⟨row, hrow, hin, hout⟩ := (hspec p).2 hy.1 (by omega)
    have hidx : (p.y - 0).toNat = p.y.toNat := by omega
    rw [hidx] at hrow
    by_cases hx : 0 ≤ p.x ∧ p.x < (row.length : Int)
    · obtain ⟨c, hc, hgc, hsc⟩ := hin hx
      have hchar : charAt lines p = some c := by
        unfold charAt
        rw [if_pos ⟨hx.1, hy.1⟩, hrow]
        exact hc
      constructor
      · rw [hchar]
        constructor
        · intro hp
          exact ⟨c, rfl, hgc.mp hp⟩
        · rintro ⟨c2, hc2, hn⟩
          obtain rfl := Option.some.inj hc2
          exact hgc.mpr hn
      · rw [hchar]
        exact hsc
    · have hchar : charAt lines p = none := by
        unfold charAt
        by_cases hx0 : 0 ≤ p.x
        · rw [if_pos ⟨hx0, hy.1⟩, hrow]
          exact List.getElem?_eq_none (by omega)
        · rw [if_neg (fun hh => hx0 hh.1)]
      obtain ⟨hg0, hs0⟩ := hout hx
      rw [hchar]
      constructor
      · constructor
        · intro hp
          exact absurd (hg0.mp hp) (List.not_mem_nil p)
        · rintro ⟨c, hc, _⟩
          cases hc
      · exact hs0
  · have hchar : charAt lines p = none := by
      unfold charAt
      by_cases hy0 : 0 ≤ p.y
      · by_cases hx0 : 0 ≤ p.x
        · rw [if_pos ⟨hx0, hy0⟩]
          rw [List.getElem?_eq_none (l := lines) (by omega)]
        · rw [if_neg (fun hh => hx0 hh.1)]
      · rw [if_neg (fun hh => hy0 hh.2)]
    obtain ⟨hg0, hs0⟩ := (hspec p).1 (by intro hh; exact hy ⟨hh.1, by omega⟩)
    rw [hchar]
    constructor
    · constructor
      · intro hp
        exact absurd (hg0.mp hp) (List.not_mem_nil p)
      · rintro ⟨c, hc, _⟩
        cases hc
    · exact hs0

theorem bbox_foldl_left (ps : List Point) (acc : BoundingBox) :
    (ps.foldl BoundingBox.includePoint acc).left =
      ps.foldl (fun a p => if p.x < a then p.x else a) acc.left := by
  induction ps generalizing acc with
  | nil => rfl
  | cons q ps2 ih =>
    rw [List.foldl_cons, List.foldl_cons]
    exact ih (acc.includePoint q)

theorem bbox_foldl_right (ps : List Point) (acc : BoundingBox) :
    (ps.foldl BoundingBox.includePoint acc).right =
      ps.foldl (fun a p => if p.x > a then p.x else a) acc.right := by
  induction ps generalizing acc with
  | nil => rfl
  | cons q ps2 ih =>
    rw [List.foldl_cons, List.foldl_cons]
    exact ih (acc.includePoint q)

theorem bbox_foldl_top (ps : List Point) (acc : BoundingBox) :
    (ps.foldl BoundingBox.includePoint acc).top =
      ps.foldl (fun a p => if p.y < a then p.y else a) acc.top := by
  induction ps generalizing acc with
  | nil => rfl
  | cons q ps2 ih =>
    rw [List.foldl_cons, List.foldl_cons]
    exact ih (acc.includePoint q)

theorem bbox_foldl_bottom (ps : List Point) (acc : BoundingBox) :
    (ps.foldl BoundingBox.includePoint acc).bottom =
      ps.foldl (fun a p => if p.y > a then p.y else a) acc.bottom := by
  induction ps generalizing acc with
  | nil => rfl
  | cons q ps2 ih =>
    rw [List.foldl_cons, List.foldl_cons]
    exact ih (acc.includePoint q)

theorem foldl_min_le (f : Point → Int) (ps : List Point) :
    ∀ a : Int,
      (ps.foldl (fun b v => if f v < b then f v else b) a) ≤ a ∧
      ∀ v ∈ ps, (ps.foldl (fun b v => if f v < b then f v else b) a) ≤ f v := by
  induction ps with
  | nil => exact fun a => ⟨le_refl a, fun v hv => absurd hv (List.not_mem_nil v)⟩
  | cons q ps2 ih =>
    intro a
    rw [List.foldl_cons]
    obtain ⟨h1, h2⟩ := ih (if f q < a then f q else a)
    refine ⟨le_trans h1 (by split <;> omega), fun v hv => ?_⟩
    rcases List.mem_cons.mp hv with rfl | hv2
    · exact le_trans h1 (by split <;> omega)
    · exact h2 v hv2

theorem foldl_min_attained (f : Point → Int) (ps : List Point) :
    ∀ a : Int,
      (ps.foldl (fun b v => if f v < b then f v else b) a) = a ∨
      ∃ v ∈ ps, (ps.foldl (fun b v => if f v < b then f v else b) a) = f v := by
  induction ps with
  | nil => exact fun a => Or.inl rfl
  | cons q ps2 ih =>
    intro a
    rw [List.foldl_cons]
    rcases ih (if f q < a then f q else a) with h | ⟨v, hv, he⟩
    · by_cases hq : f q < a
      · exact Or.inr ⟨q, List.mem_cons_self _ _, by rw [h, if_pos hq]⟩
      · exact Or.inl (by rw [h, if_neg hq])
    · exact Or.inr ⟨v, List.mem_cons_of_mem _ hv, he⟩

theorem foldl_max_ge (f : Point → Int) (ps : List Point) :
    ∀ a : Int,
      a ≤ (ps.foldl (fun b v => if f v > b then f v else b) a) ∧
      ∀ v ∈ ps, f v ≤ (ps.foldl (fun b v => if f v > b then f v else b) a) := by
  induction ps with
  | nil => exact fun a => ⟨le_refl a, fun v hv => absurd hv (List.not_mem_nil v)⟩
  | cons q ps2 ih =>
    intro a
    rw [List.foldl_cons]
    obtain ⟨h1, h2⟩ := ih (if f q > a then f q else a)
    refine ⟨le_trans (by split <;> omega) h1, fun v hv => ?_⟩
    rcases List.mem_cons.mp hv with rfl | hv2
    · exact le_trans (by split <;> omega) h1
    · exact h2 v hv2

theorem foldl_max_attained (f : Point → Int) (ps : List Point) :
    ∀ a : Int,
      (ps.foldl (fun b v => if f v > b then f v else b) a) = a ∨
      ∃ v ∈ ps, (ps.foldl (fun b v => if f v > b then f v else b) a) = f v := by
  induction ps with
  | nil => exact fun a => Or.inl rfl
  | cons q ps2 ih =>
    intro a
    rw [List.foldl_cons]
    rcases ih (if f q > a then f q else a) with h | ⟨v, hv, he⟩
    · by_cases hq : f q > a
      · exact Or.inr ⟨q, List.mem_cons_self _ _, by rw [h, if_pos hq]⟩
      · exact Or.inl (by rw [h, if_neg hq])
    · exact Or.inr ⟨v, List.mem_cons_of_mem _ hv, he⟩

/-- The fold of `BoundingBox::include` over a point list computes exactly
the componentwise extremes when they are attained and fit in the sentinel
range. -/
theorem bboxOf_eq (ps : List Point) (L R T B : Int)
    (hbound : ∀ p ∈ ps, L ≤ p.x ∧ p.x ≤ R ∧ T ≤ p.y ∧ p.y ≤ B)
    (hL : ∃ p ∈ ps, p.x = L) (hR : ∃ p ∈ ps, p.x = R)
    (hT : ∃ p ∈ ps, p.y = T) (hB : ∃ p ∈ ps, p.y = B)
    (hLmax : L ≤ isizeMax) (hRmin : isizeMin ≤ R)
    (hTmax : T ≤ isizeMax) (hBmin : isizeMin ≤ B) :
    bboxOf ps = ⟨L, R, T, B⟩ := by
  have e : bboxOf ps =
      ⟨(bboxOf ps).left, (bboxOf ps).right, (bboxOf ps).top, (bboxOf ps).bottom⟩ := rfl
  have hleft : (bboxOf ps).left = L := by
    unfold bboxOf
    rw [bbox_foldl_left]
    obtain ⟨p0, hp0, hpx⟩ := hL
    refine le_antisymm (by rw [← hpx]; exact (foldl_min_le (·.x) ps _).2 p0 hp0) ?_
    rcases foldl_min_attained (·.x) ps BoundingBox.empty.left with h | ⟨v, hv, he⟩
    · rw [h]; exact hLmax
    · rw [he]; exact (hbound v hv).1
  have hright : (bboxOf ps).right = R := by
    unfold bboxOf
    rw [bbox_foldl_right]
    obtain ⟨p0, hp0, hpx⟩ := hR
    refine le_antisymm ?_ (by rw [← hpx]; exact (foldl_max_ge (·.x) ps _).2 p0 hp0)
    rcases foldl_max_attained (·.x) ps BoundingBox.empty.right with h | ⟨v, hv, he⟩
    · rw [h]; exact hRmin
    · rw [he]; exact (hbound v hv).2.1
  have htop : (bboxOf ps).top = T := by
    unfold bboxOf
    rw [bbox_foldl_top]
    obtain ⟨p0, hp0, hpy⟩ := hT
    refine le_antisymm (by rw [← hpy]; exact (foldl_min_le (·.y) ps _).2 p0 hp0) ?_
    rcases foldl_min_attained (·.y) ps BoundingBox.empty.top with h | ⟨v, hv, he⟩
    · rw [h]; exact hTmax
    · rw [he]; exact (hbound v hv).2.2.1
  have hbottom : (bboxOf ps).bottom = B := by
    unfold bboxOf
    rw [bbox_foldl_bottom]
    obtain ⟨p0, hp0, hpy⟩ := hB
    refine le_antisymm ?_ (by rw [← hpy]; exact (foldl_max_ge (·.y) ps _).2 p0 hp0)
    rcases foldl_max_attained (·.y) ps BoundingBox.empty.bottom with h | ⟨v, hv, he⟩
    · rw [h]; exact hBmin
    · rw [he]; exact (hbound v hv).2.2.2
  rw [e, hleft, hright, htop, hbottom]

/-- The bounding box of a point list lying inside a rectangle stays inside
it (sentinel-compatible bounds included). -/
theorem bboxOf_within (ps : List Point) (L R T B : Int)
    (hbound : ∀ p ∈ ps, L ≤ p.x ∧ p.x ≤ R ∧ T ≤ p.y ∧ p.y ≤ B)
    (hLmax : L ≤ isizeMax) (hRmin : isizeMin ≤ R)
    (hTmax : T ≤ isizeMax) (hBmin : isizeMin ≤ B) :
    L ≤ (bboxOf ps).left ∧ (bboxOf ps).right ≤ R ∧
      T ≤ (bboxOf ps).top ∧ (bboxOf ps).bottom ≤ B := by
  refine ⟨?_, ?_, ?_, ?_⟩
  · unfold bboxOf
    rw [bbox_foldl_left]
    rcases foldl_min_attained (·.x) ps BoundingBox.empty.left with h | ⟨v, hv, he⟩
    · rw [h]; exact hLmax
    · rw [he]; exact (hbound v hv).1
  · unfold bboxOf
    rw [bbox_foldl_right]
    rcases foldl_max_attained (·.x) ps BoundingBox.empty.right with h | ⟨v, hv, he⟩
    · rw [h]; exact hRmin
    · rw [he]; exact (hbound v hv).2.1
  · unfold bboxOf
    rw [bbox_foldl_top]
    rcases foldl_min_attained (·.y) ps BoundingBox.empty.top with h | ⟨v, hv, he⟩
    · rw [h]; exact hTmax
    · rw [he]; exact (hbound v hv).2.2.1
  · unfold bboxOf
    rw [bbox_foldl_bottom]
    rcases foldl_max_attained (·.y) ps BoundingBox.empty.bottom with h | ⟨v, hv, he⟩
    · rw [h]; exact hBmin
    · rw [he]; exact (hbound v hv).2.2.2

/-- Union with a box lying inside the rectangle is absorbed. -/
theorem union_absorbed (sb : BoundingBox) (L R T B : Int)
    (h1 : L ≤ sb.left) (h2 : sb.right ≤ R) (h3 : T ≤ sb.top) (h4 : sb.bottom ≤ B) :
    BoundingBox.union ⟨L, R, T, B⟩ sb = ⟨L, R, T, B⟩ := by
  unfold BoundingBox.union
  have hl : (if L > sb.left then sb.left else L) = L := by split <;> omega
  have hr : (if R > sb.right then R else sb.right) = R := by split <;> omega
  have ht : (if T > sb.top then sb.top else T) = T := by split <;> omega
  have hb : (if B > sb.bottom then B else sb.bottom) = B := by split <;> omega
  rw [show (⟨L, R, T, B⟩ : BoundingBox).left = L from rfl]
  rw [show (⟨L, R, T, B⟩ : BoundingBox).right = R from rfl]
  rw [show (⟨L, R, T, B⟩ : BoundingBox).top = T from rfl]
  rw [show (⟨L, R, T, B⟩ : BoundingBox).bottom = B from rfl]
  rw [hl, hr, ht, hb]

theorem intRange_length (a b : Int) : (intRange a b).length = (b + 1 - a).toNat := by
  unfold intRange
  rw [List.length_map, List.length_range]

theorem intRange_getElem (a b : Int) (i : Nat) (h : i < (b + 1 - a).toNat) :
    (intRange a b)[i]? = some (a + i) := by
  unfold intRange
  rw [List.getElem?_map, List.getElem?_range h]
  rfl

/-- C9 (amended): for every rectangular input map of valid characters whose
border rows and columns are all walls and whose four lines just inside the
border each contain a non-wall cell — so the open squares' bounding box is
the full rectangle minus the single border ring — parsing with
`MapBuilder::build` and re-rendering with the `Map` display (which drops
sprite health annotations) reproduces the original text exactly, and in
particular up to per-line whitespace trimming. -/
theorem c9_parse_render_roundtrip (lines : List (List Char)) (w : Nat)
    (hw3 : 3 ≤ w) (hh3 : 3 ≤ lines.length)
    (hwidth : ∀ l ∈ lines, l.length = w)
    (hvalid : ∀ l ∈ lines, ∀ c ∈ l, c = '.' ∨ c = '#' ∨ c = 'E' ∨ c = 'G')
    (hborder : ∀ i j : Nat, i < lines.length → j < w →
      (i = 0 ∨ i = lines.length - 1 ∨ j = 0 ∨ j = w - 1) →
      charAt lines ⟨(j : Int), (i : Int)⟩ = some '#')
    (hrow1 : ∃ j : Nat, ∃ c, charAt lines ⟨(j : Int), 1⟩ = some c ∧ ¬ c = '#')
    (hrowN : ∃ j : Nat, ∃ c,
      charAt lines ⟨(j : Int), ((lines.length - 2 : Nat) : Int)⟩ = some c ∧ ¬ c = '#')
    (hcol1 : ∃ i : Nat, ∃ c, charAt lines ⟨1, (i : Int)⟩ = some c ∧ ¬ c = '#')
    (hcolN : ∃ i : Nat, ∃ c,
      charAt lines ⟨((w - 2 : Nat) : Int), (i : Int)⟩ = some c ∧ ¬ c = '#') :
    ∃ g s, MapBuilder.build SpriteBuilder.default lines = some (g, s) ∧
      Map.render g s = lines := by
  have hne : ∀ l ∈ lines, ¬ l = [] := by
    intro l hl hnil
    have := hwidth l hl
    rw [hnil] at this
    simp at this
    omega
  obtain ⟨g, s, heq, hchar⟩ := build_charAt SpriteBuilder.default lines hvalid hne
  refine ⟨g, s, heq, ?_⟩
  -- bounds carried by any character of the text
  have hcharAt_bounds : ∀ (p : Point) (c : Char), charAt lines p = some c →
      0 ≤ p.x ∧ p.x < (w : Int) ∧ 0 ≤ p.y ∧ p.y < (lines.length : Int) := by
    intro p c hc
    unfold charAt at hc
    by_cases h0 : 0 ≤ p.x ∧ 0 ≤ p.y
    · rw [if_pos h0] at hc
      cases hrow : lines[p.y.toNat]? with
      | none => rw [hrow] at hc; cases hc
      | some row =>
        rw [hrow] at hc
        dsimp only at hc
        have hylt : p.y.toNat < lines.length := by
          by_contra hge
          rw [List.getElem?_eq_none (by omega)] at hrow
          cases hrow
        have hrmem : row ∈ lines := List.getElem?_mem hrow
        have hxlt : p.x.toNat < row.length := by
          by_contra hge
          rw [List.getElem?_eq_none (by omega)] at hc
          cases hc
        have hrw : row.length = w := hwidth row hrmem
        refine ⟨h0.1, by omega, h0.2, by omega⟩
    · rw [if_neg h0] at hc
      cases hc
  -- a grid point never lies on the border
  have hgbound : ∀ p ∈ g, 1 ≤ p.x ∧ p.x ≤ (w : Int) - 2 ∧
      1 ≤ p.y ∧ p.y ≤ (lines.length : Int) - 2 := by
    intro p hp
    obtain ⟨c, hc, hcn⟩ := (hchar p).1.mp hp
    obtain ⟨hx0, hxw, hy0, hyh⟩ := hcharAt_bounds p c hc
    have hpp : (⟨(p.x.toNat : Int), (p.y.toNat : Int)⟩ : Point) = p :=
      point_ext (by show (p.x.toNat : Int) = p.x; omega)
        (by show (p.y.toNat : Int) = p.y; omega)
    have hbord := hborder p.y.toNat p.x.toNat (by omega) (by omega)
    rw [hpp] at hbord
    have hnb : ¬ (p.y.toNat = 0 ∨ p.y.toNat = lines.length - 1 ∨
        p.x.toNat = 0 ∨ p.x.toNat = w - 1) := by
      intro hcase
      have := hbord hcase
      rw [hc] at this
      exact hcn (Option.some.inj this)
    refine ⟨?_, ?_, ?_, ?_⟩ <;> omega
  have hsbound : ∀ p ∈ s.map (·.1), 1 ≤ p.x ∧ p.x ≤ (w : Int) - 2 ∧
      1 ≤ p.y ∧ p.y ≤ (lines.length : Int) - 2 := by
    intro p hp
    have hg2 := get_isSome_of_mem_keys hp
    rw [(hchar p).2] at hg2
    cases hcg : charAt lines p with
    | none => rw [hcg] at hg2; cases hg2
    | some c =>
      rw [hcg] at hg2
      dsimp only at hg2
      have hEG : c = 'E' ∨ c = 'G' := by
        by_cases hE : c = 'E'
        · exact Or.inl hE
        · by_cases hG : c = 'G'
          · exact Or.inr hG
          · rw [if_neg hE, if_neg hG] at hg2
            cases hg2
      apply hgbound
      refine (hchar p).1.mpr ⟨c, hcg, ?_⟩
      rcases hEG with rfl | rfl <;> decide
  have hiM1 : (1 : Int) ≤ isizeMax := by norm_num [isizeMax]
  have himNeg : isizeMin < 0 := by norm_num [isizeMin]
  -- the grid bounding box is the interior rectangle
  have hgridbb : bboxOf g = ⟨1, (w : Int) - 2, 1, (lines.length : Int) - 2⟩ := by
    apply bboxOf_eq
    · exact hgbound
    · obtain ⟨i, c, hc, hcn⟩ := hcol1
      exact ⟨⟨1, (i : Int)⟩, (hchar _).1.mpr ⟨c, hc, hcn⟩, rfl⟩
    · obtain ⟨i, c, hc, hcn⟩ := hcolN
      refine ⟨⟨((w - 2 : Nat) : Int), (i : Int)⟩, (hchar _).1.mpr ⟨c, hc, hcn⟩, by push_cast; omega⟩
    · obtain ⟨j, c, hc, hcn⟩ := hrow1
      exact ⟨⟨(j : Int), 1⟩, (hchar _).1.mpr ⟨c, hc, hcn⟩, rfl⟩
    · obtain ⟨j, c, hc, hcn⟩ := hrowN
      refine ⟨⟨(j : Int), ((lines.length - 2 : Nat) : Int)⟩,
        (hchar _).1.mpr ⟨c, hc, hcn⟩, by push_cast; omega⟩
    · exact hiM1
    · omega
    · exact hiM1
    · omega
  have hspbb := bboxOf_within (s.map (·.1)) 1 ((w : Int) - 2) 1
    ((lines.length : Int) - 2) hsbound hiM1 (by omega) hiM1 (by omega)
  have hbbeq : Map.bbox g s = ⟨1, (w : Int) - 2, 1, (lines.length : Int) - 2⟩ := by
    unfold Map.bbox
    show (bboxOf g).union (bboxOf (s.map (·.1))) = _
    rw [hgridbb]
    exact union_absorbed _ _ _ _ _ hspbb.1 hspbb.2.1 hspbb.2.2.1 hspbb.2.2.2
  have hmargin : (Map.bbox g s).margin 1 =
      ⟨0, (w : Int) - 1, 0, (lines.length : Int) - 1⟩ := by
    rw [hbbeq]
    show (⟨1 - 1, ((w : Int) - 2) + 1, 1 - 1, ((lines.length : Int) - 2) + 1⟩ :
      BoundingBox) = _
    congr 1 <;> omega
  -- the value of the text at in-range integer coordinates
  have hcharAt_val : ∀ (ii jj : Nat) (row : List Char),
      lines[ii]? = some row → ∀ c, row[jj]? = some c →
      charAt lines ⟨(jj : Int), (ii : Int)⟩ = some c := by
    intro ii jj row hrow c hc2
    unfold charAt
    dsimp only
    rw [if_pos ⟨Int.natCast_nonneg jj, Int.natCast_nonneg ii⟩]
    rw [show ((ii : Int)).toNat = ii by omega, show ((jj : Int)).toNat = jj by omega]
    rw [hrow]
    exact hc2
  -- one rendered cell equals the input character
  have hcell : ∀ (ii jj : Nat), ii < lines.length → jj < w →
      ∀ c, charAt lines ⟨(jj : Int), (ii : Int)⟩ = some c →
      renderChar g s ⟨(jj : Int), (ii : Int)⟩ = c := by
    intro ii jj hii hjj c hcg
    have hcv : c = '.' ∨ c = '#' ∨ c = 'E' ∨ c = 'G' := by
      have hcg2 := hcg
      unfold charAt at hcg2
      dsimp only at hcg2
      rw [if_pos ⟨Int.natCast_nonneg jj, Int.natCast_nonneg ii⟩] at hcg2
      rw [show ((ii : Int)).toNat = ii by omega,
        show ((jj : Int)).toNat = jj by omega] at hcg2
      cases hrow : lines[ii]? with
      | none => rw [hrow] at hcg2; cases hcg2
      | some row =>
        rw [hrow] at hcg2
        dsimp only at hcg2
        exact hvalid row (List.getElem?_mem hrow) c (List.getElem?_mem hcg2)
    unfold renderChar
    rcases hcv with rfl | rfl | rfl | rfl
    · have hsv : s.get ⟨(jj : Int), (ii : Int)⟩ = none := by
        rw [(hchar _).2, hcg]
        rfl
      rw [hsv]
      have hpg : (⟨(jj : Int), (ii : Int)⟩ : Point) ∈ g :=
        (hchar _).1.mpr ⟨'.', hcg, by decide⟩
      unfold Grid.get
      rw [if_pos hpg]
      rfl
    · have hsv : s.get ⟨(jj : Int), (ii : Int)⟩ = none := by
        rw [(hchar _).2, hcg]
        rfl
      rw [hsv]
      have hpg : ¬ (⟨(jj : Int), (ii : Int)⟩ : Point) ∈ g := by
        intro hin
        obtain ⟨c2, hc2, hcn2⟩ := (hchar _).1.mp hin
        rw [hcg] at hc2
        exact hcn2 (Option.some.inj hc2).symm
      unfold Grid.get
      rw [if_neg hpg]
      rfl
    · have hsv : s.get ⟨(jj : Int), (ii : Int)⟩ =
          some (SpriteBuilder.default.build .Elf) := by
        rw [(hchar _).2, hcg]
        rfl
      rw [hsv]
      rfl
    · have hsv : s.get ⟨(jj : Int), (ii : Int)⟩ =
          some (SpriteBuilder.default.build .Goblin) := by
        rw [(hchar _).2, hcg]
        rfl
      rw [hsv]
      rfl
  -- assemble the rendered text line by line
  simp only [Map.render]
  rw [hmargin]
  dsimp only
  apply List.ext_getElem?
  intro i
  rw [List.getElem?_map]
  by_cases hi : i < lines.length
  · rw [intRange_getElem 0 ((lines.length : Int) - 1) i (by omega)]
    rw [List.getElem?_eq_getElem hi]
    simp only [Option.map_some']
    refine congrArg some ?_
    dsimp only
    apply List.ext_getElem?
    intro j
    rw [List.getElem?_map]
    by_cases hj : j < w
    · have hjl : j < lines[i].length := by
        rw [hwidth _ (List.getElem_mem hi)]
        exact hj
      rw [intRange_getElem 0 ((w : Int) - 1) j (by omega)]
      rw [List.getElem?_eq_getElem hjl]
      simp only [Option.map_some']
      refine congrArg some ?_
      dsimp only
      have hv := hcharAt_val i j lines[i] (List.getElem?_eq_getElem hi)
        lines[i][j] (List.getElem?_eq_getElem hjl)
      have hrc := hcell i j hi hj lines[i][j] hv
      rw [show ((0 : Int) + (j : Int)) = (j : Int) by omega,
        show ((0 : Int) + (i : Int)) = (i : Int) by omega]
      exact hrc
    · rw [List.getElem?_eq_none (l := intRange 0 ((w : Int) - 1))
        (by rw [intRange_length]; omega)]
      rw [List.getElem?_eq_none (by rw [hwidth _ (List.getElem_mem hi)]; omega)]
      rfl
  · rw [List.getElem?_eq_none (l := intRange 0 ((lines.length : Int) - 1))
      (by rw [intRange_length]; omega)]
    rw [List.getElem?_eq_none (l := lines) (by omega)]
    rfl

theorem c9_witness :
    ∃ g s, MapBuilder.build SpriteBuilder.default ringLines = some (g, s) ∧
      Map.render g s = ringLines := by
  have hb : ∀ i : Nat, i < 4 → ∀ j : Nat, j < 4 →
      (i = 0 ∨ i = ringLines.length - 1 ∨ j = 0 ∨ j = 4 - 1) →
      charAt ringLines ⟨(j : Int), (i : Int)⟩ = some '#' := by decide
  exact c9_parse_render_roundtrip ringLines 4 (by decide) (by decide)
    (by decide) (by decide)
    (fun i j hi hj hc => hb i hi j hj hc)
    ⟨1, 'E', by decide, by decide⟩ ⟨2, 'G', by decide, by decide⟩
    ⟨1, 'E', by decide, by decide⟩ ⟨2, 'G', by decide, by decide⟩

end GoblinWars
